import Mathlib

/-!
# NeuroUI schematic editor (`frontend/src/App.jsx`)

A shallow embedding of the interactive schematic editor of the `App` component:
the layout of neurons on the canvas, the three hit tests (`getHitNeuron`,
`getHitProbe`, `getHitConnection`) and the pointer / keyboard handlers.

Modelling conventions.

* JavaScript numbers are exact rationals (`ℚ`).  Rounding, `NaN` and the
  infinities are not modelled; statements about a dendrite assume its length is
  positive, so no division by zero is involved.
* `Math.sqrt(dx^2 + dy^2) <= r` is the real-number comparison, expressed without a
  square root as `0 ≤ r ∧ dx^2 + dy^2 ≤ r^2` (`withinDistance`,
  `withinDistance_iff_sqrt`).
* Entity ids are the strings produced by `uuid()`; a handler that creates an
  entity takes the fresh id as an argument.  `undefined` / `null` is `none`.  Ids
  are never the empty string, so the truthiness test of an id-or-null value is
  `Option.isSome`.
* React state is the record `State`; every handler reads the state of the render
  it was created in and queues new values for some fields, which is a function
  `State → State`.  `wasDraggedRef.current` and the canvas size are fields too.
* A JavaScript exception is the `Except.error` result.
-/

namespace NeuroUI

/-! ## Data model -/

/-- Entity identifier (a `uuid()` string). -/
abbrev Id := String

/-- Section names: `'Soma'`, `'Apical Dendrite'`, `'Basal Dendrite'`. -/
inductive SectionName where
  | Soma
  | ApicalDendrite
  | BasalDendrite
deriving DecidableEq, Repr

/-- Synapse types offered by the editor: `'AMPA'`, `'GABA'`. -/
inductive SynapseType where
  | AMPA
  | GABA
deriving DecidableEq, Repr

/-- Stimulator types: `'AMPA'`, `'GABA'`, `'IClamp'`. -/
inductive StimType where
  | AMPA
  | GABA
  | IClamp
deriving DecidableEq, Repr

/-- Application mode: `'individual'` or `'probabilistic'`. -/
inductive Mode where
  | individual
  | probabilistic
deriving DecidableEq, Repr

/-- The `morphology` object of a neuron. -/
structure Morphology where
  somaDiam : ℚ
  includeApical : Bool
  apicalL : ℚ
  apicalDiam : ℚ
  includeBasal : Bool
  basalL : ℚ
  basalDiam : ℚ
deriving DecidableEq

/-- A neuron `{ id, name, morphology }`. -/
structure Neuron where
  id : Id
  name : String
  morphology : Morphology
deriving DecidableEq

/-- A connection.  `sourceId` / `targetId` may be `undefined` (the
"Add Connection" button passes `neurons[0]?.id`). -/
structure Connection where
  id : Id
  sourceId : Option Id
  targetId : Option Id
  synapseType : SynapseType
  targetSection : SectionName
  position : ℚ
  weight : ℚ
  delay : ℚ
deriving DecidableEq

/-- A stimulator (`addStimulator`). -/
structure Stimulator where
  id : Id
  targetId : Option Id
  stimType : StimType
  targetSection : SectionName
  position : ℚ
  weight : ℚ
  delay : ℚ
deriving DecidableEq

/-- A recording probe `{ id, targetId, section, position, color }`; the field
`section` is written `section_` (`section` is a reserved word here). -/
structure Probe where
  id : Id
  targetId : Id
  section_ : SectionName
  position : ℚ
  color : String
deriving DecidableEq

/-- A point `{ x, y }` of the drawing surface. -/
structure Point where
  x : ℚ
  y : ℚ
deriving DecidableEq

/-- The captured start of a connection being drawn: `{ neuronId, x, y }`. -/
structure StartPoint where
  neuronId : Id
  x : ℚ
  y : ℚ
deriving DecidableEq

/-- The canvas element: its `width` and `height` attributes. -/
structure Canvas where
  width : ℚ
  height : ℚ
deriving DecidableEq

/-- The React state of `App` that the schematic editor reads and writes, with
`wasDraggedRef.current` (`wasDragged`) and the canvas element (`canvas`). -/
structure State where
  mode : Mode
  neurons : List Neuron
  connections : List Connection
  stimulators : List Stimulator
  probes : List Probe
  selectedNeuronId : Option Id
  draggedProbeId : Option Id
  draggedConnectionId : Option Id
  connectionDrawMode : Option SynapseType
  connectionStartPoint : Option StartPoint
  mousePos : Point
  wasDragged : Bool
  canvas : Canvas
deriving DecidableEq

/-- The value of `circuitSchematicRef.current`: the canvas is rendered (and the ref
attached) only under `mode === 'individual'`; otherwise the ref is `null`. -/
def circuitSchematicRef (s : State) : Option Canvas :=
  if s.mode = Mode.individual then some s.canvas else none

/-- A JavaScript exception: `ReferenceError` (a `const` read before its
initialisation) or `TypeError` (a property read on `undefined`). -/
inductive JsError where
  | referenceError
  | typeError
deriving DecidableEq, Repr

deriving instance DecidableEq for Except

/-- The result of running an event handler: the state after the updates it queued,
and the exception that aborted it, if any.  Updates queued before the exception are
still applied. -/
structure Outcome where
  state : State
  error : Option JsError
deriving DecidableEq

/-- The value `{ neuron, neuronPos, section, position }` returned by `getHitNeuron`. -/
structure Hit where
  neuron : Neuron
  neuronPos : Point
  section_ : SectionName
  position : ℚ
deriving DecidableEq

/-! ## Geometry -/

/-- The centre of the neuron at `index` among `length` neurons:
`{ x: (width / (neurons.length + 1)) * (index + 1), y: height / 2 }`. -/
def neuronPos (width height : ℚ) (length index : Nat) : Point :=
  { x := (width / ((length : ℚ) + 1)) * ((index : ℚ) + 1), y := height / 2 }

/-- One step of the `forEach` that fills `neuronPositions`:
`neuronPositions[neuron.id] = { x: ..., y: ... }`. -/
def assignPosition (width height : ℚ) (length : Nat) (table : Id → Option Point)
    (entry : Nat × Neuron) : Id → Option Point :=
  fun key => if key = entry.2.id then some (neuronPos width height length entry.1) else table key

/-- The table `neuronPositions` built by the render effect (line 274, from the
bounding rectangle) and by `getHitConnection` (line 429, from the canvas):
`neurons.forEach((neuron, index) => { neuronPositions[neuron.id] = ... })`, starting
from the empty object.  A later neuron with the same id overwrites an earlier one. -/
def neuronPositions (neurons : List Neuron) (width height : ℚ) : Id → Option Point :=
  neurons.enum.foldl (assignPosition width height neurons.length) (fun _ => none)

/-- The test `Math.sqrt(Math.pow(dx, 2) + Math.pow(dy, 2)) <= r`. -/
def withinDistance (dx dy r : ℚ) : Bool :=
  decide (0 ≤ r ∧ dx ^ 2 + dy ^ 2 ≤ r ^ 2)

/-- The clamp `Math.max(0, Math.min(1, v))`. -/
def clamp01 (v : ℚ) : ℚ := max 0 (min 1 v)

/-- The palette `DISTINCT_COLORS`. -/
def DISTINCT_COLORS : List String :=
  ["#e6194b", "#3cb44b", "#ffe119", "#4363d8", "#f58231", "#911eb4", "#46f0f0",
   "#f032e6", "#bcf60c", "#fabebe", "#008080", "#e6beff", "#9a6324", "#fffac8",
   "#800000", "#aaffc3", "#808000", "#ffd8b1", "#000075", "#808080", "#000000"]

/-- The colour `DISTINCT_COLORS[index % DISTINCT_COLORS.length]`. -/
def getDistinctColor (index : Nat) : String :=
  DISTINCT_COLORS.getD (index % DISTINCT_COLORS.length) ""

/-- The lookup `neurons.find(n => n.id === key)` together with the index of the
neuron found (`neurons.indexOf(neuron)`); `key` may be `undefined`. -/
def findNeuron (neurons : List Neuron) (key : Option Id) : Option (Nat × Neuron) :=
  neurons.enum.find? (fun entry => decide (some entry.2.id = key))

/-- The lookup `neuronPositions[key]`; an `undefined` key finds nothing. -/
def lookupPosition (table : Id → Option Point) : Option Id → Option Point
  | none => none
  | some key => table key

/-! ## Hit tests -/

/-- The initialiser of `const basalBottom = neuronPos.y + somaRadius + basalBottom;`
(line 404): it reads `basalBottom` before it is initialised, which raises a
`ReferenceError`. -/
def basalBottomInit (_neuronPosY _somaRadius : ℚ) : Except JsError ℚ :=
  Except.error JsError.referenceError

/-- The position reported for an apical hit at height `y` (lines 399-400):
`position = (apicalBottom - y) / visualApicalL`, then `Math.max(0, Math.min(1, position))`.
The definition is the code's for `visualApicalL ≠ 0`; the division by zero of the code is
not reproduced. -/
def apicalPositionAt (apicalBottom visualApicalL y : ℚ) : ℚ :=
  let position := (apicalBottom - y) / visualApicalL
  clamp01 position

/-- The position reported for a basal hit at height `y` (lines 406-407):
`position = (y - basalTop) / visualBasalL`, then `Math.max(0, Math.min(1, position))`.
The definition is the code's for `visualBasalL ≠ 0`; the division by zero of the code is
not reproduced. -/
def basalPositionAt (basalTop visualBasalL y : ℚ) : ℚ :=
  let position := (y - basalTop) / visualBasalL
  clamp01 position

/-- The body of the loop of `getHitNeuron` for the neuron at `index`: `ok (some hit)`
is `return hit`, `ok none` falls through to the next neuron. -/
def hitNeuronAt (width height : ℚ) (length : Nat) (x y : ℚ) (index : Nat) (neuron : Neuron) :
    Except JsError (Option Hit) :=
  let neuronPos := neuronPos width height length index
  let morpho := neuron.morphology
  let somaRadius := morpho.somaDiam / 2
  let CLICK_TOLERANCE : ℚ := 5
  if withinDistance (x - neuronPos.x) (y - neuronPos.y) somaRadius then
    Except.ok (some { neuron := neuron, neuronPos := neuronPos, section_ := SectionName.Soma,
                      position := 1 / 2 })
  else
    let visualApicalL := morpho.apicalL / 4
    let apicalTop := neuronPos.y - somaRadius - visualApicalL
    let apicalBottom := neuronPos.y - somaRadius
    if morpho.includeApical = true ∧ x ≥ neuronPos.x - CLICK_TOLERANCE
        ∧ x ≤ neuronPos.x + CLICK_TOLERANCE ∧ y ≥ apicalTop ∧ y ≤ apicalBottom then
      Except.ok (some { neuron := neuron, neuronPos := neuronPos,
                        section_ := SectionName.ApicalDendrite,
                        position := apicalPositionAt apicalBottom visualApicalL y })
    else if morpho.includeBasal = true then
      let visualBasalL := morpho.basalL / 4
      let basalTop := neuronPos.y + somaRadius
      match basalBottomInit neuronPos.y somaRadius with
      | Except.error e => Except.error e
      | Except.ok basalBottom =>
        if x ≥ neuronPos.x - CLICK_TOLERANCE ∧ x ≤ neuronPos.x + CLICK_TOLERANCE
            ∧ y ≥ basalTop ∧ y ≤ basalBottom then
          Except.ok (some { neuron := neuron, neuronPos := neuronPos,
                            section_ := SectionName.BasalDendrite,
                            position := basalPositionAt basalTop visualBasalL y })
        else Except.ok none
    else Except.ok none

/-- The loop `for (const neuron of [...neurons].reverse())` of `getHitNeuron`, over the
neurons paired with their index in `neurons` (`neurons.indexOf(neuron)`). -/
def getHitNeuronLoop (width height : ℚ) (length : Nat) (x y : ℚ) :
    List (Nat × Neuron) → Except JsError (Option Hit)
  | [] => Except.ok none
  | entry :: rest =>
    match hitNeuronAt width height length x y entry.1 entry.2 with
    | Except.error e => Except.error e
    | Except.ok (some hit) => Except.ok (some hit)
    | Except.ok none => getHitNeuronLoop width height length x y rest

/-- The function `getHitNeuron(x, y)`. -/
def getHitNeuron (s : State) (x y : ℚ) : Except JsError (Option Hit) :=
  match circuitSchematicRef s with
  | none => Except.ok none
  | some canvas =>
    getHitNeuronLoop canvas.width canvas.height s.neurons.length x y s.neurons.enum.reverse

/-- The vertical coordinate of a point at `position` on `section` of a neuron centred
at height `neuronY` (lines 419-421 of `getHitProbe`, 320-322 of the render effect). -/
def sectionY (neuronY somaRadius : ℚ) (morpho : Morphology) (sec : SectionName)
    (position : ℚ) : ℚ :=
  match sec with
  | SectionName.Soma => neuronY
  | SectionName.ApicalDendrite => neuronY - somaRadius - position * (morpho.apicalL / 4)
  | SectionName.BasalDendrite => neuronY + somaRadius + position * (morpho.basalL / 4)

/-- The point `(neuronX, probeY)` to which `getHitProbe` measures the distance for
`probe`; `none` when the target neuron is not found (`continue`). -/
def probeTarget (neurons : List Neuron) (width height : ℚ) (probe : Probe) : Option Point :=
  match findNeuron neurons (some probe.targetId) with
  | none => none
  | some (index, neuron) =>
    let neuronX := (width / ((neurons.length : ℚ) + 1)) * ((index : ℚ) + 1)
    let neuronY := height / 2
    let somaRadius := neuron.morphology.somaDiam / 2
    some { x := neuronX,
           y := sectionY neuronY somaRadius neuron.morphology probe.section_ probe.position }

/-- The loop `for (const probe of [...probes].reverse())` of `getHitProbe`. -/
def getHitProbeLoop (neurons : List Neuron) (width height x y : ℚ) : List Probe → Option Probe
  | [] => none
  | probe :: rest =>
    match probeTarget neurons width height probe with
    | none => getHitProbeLoop neurons width height x y rest
    | some target =>
      if withinDistance (x - target.x) (y - target.y) 7 then some probe
      else getHitProbeLoop neurons width height x y rest

/-- The function `getHitProbe(x, y)`. -/
def getHitProbe (s : State) (x y : ℚ) : Option Probe :=
  match circuitSchematicRef s with
  | none => none
  | some canvas => getHitProbeLoop s.neurons canvas.width canvas.height x y s.probes.reverse

/-- The point `(targetX, targetY)` to which `getHitConnection` measures the distance for
`conn` (lines 431-435); `none` when the target neuron or its position is missing
(`continue`).  The source of the connection is not looked at. -/
def connectionTarget (neurons : List Neuron) (width height : ℚ) (conn : Connection) :
    Option Point :=
  match findNeuron neurons conn.targetId,
        lookupPosition (neuronPositions neurons width height) conn.targetId with
  | some (_, targetNeuronData), some targetNeuronBasePos =>
    let morpho := targetNeuronData.morphology
    let somaRadius := morpho.somaDiam / 2
    let targetY :=
      if conn.targetSection = SectionName.ApicalDendrite ∧ morpho.includeApical = true then
        targetNeuronBasePos.y - somaRadius - conn.position * (morpho.apicalL / 4)
      else if conn.targetSection = SectionName.BasalDendrite ∧ morpho.includeBasal = true then
        targetNeuronBasePos.y + somaRadius + conn.position * (morpho.basalL / 4)
      else targetNeuronBasePos.y
    some { x := targetNeuronBasePos.x, y := targetY }
  | _, _ => none

/-- The loop `for (const conn of [...connections].reverse())` of `getHitConnection`. -/
def getHitConnectionLoop (neurons : List Neuron) (width height x y : ℚ) :
    List Connection → Option Connection
  | [] => none
  | conn :: rest =>
    match connectionTarget neurons width height conn with
    | none => getHitConnectionLoop neurons width height x y rest
    | some target =>
      if withinDistance (x - target.x) (y - target.y) 10 then some conn
      else getHitConnectionLoop neurons width height x y rest

/-- The function `getHitConnection(x, y)`. -/
def getHitConnection (s : State) (x y : ℚ) : Option Connection :=
  match circuitSchematicRef s with
  | none => none
  | some canvas =>
    getHitConnectionLoop s.neurons canvas.width canvas.height x y s.connections.reverse

/-! ## Contract of the hit tests

The definitions of this section follow the words of the specification, not the code; the
hit tests are compared with them. -/

/-- Specification, §3 (layout position): for `N` neurons on a surface of width `W` and
height `H`, neuron `i` (0-indexed) is centred at `x = W/(N+1) * (i+1)`, `y = H/2`. -/
def specLayoutPosition (W H : ℚ) (N i : Nat) : Point :=
  { x := W / ((N : ℚ) + 1) * ((i : ℚ) + 1), y := H / 2 }

/-- Specification, §4.1 (`sectionEndpoint(neuron, section, position, neuronPos)`): for the
soma, `neuronPos`; for the apical dendrite, `(x, y - somaRadius - position * apicalL/4)`;
for the basal dendrite, `(x, y + somaRadius + position * basalL/4)`. -/
def specSectionEndpoint (neuron : Neuron) (sec : SectionName) (position : ℚ)
    (neuronPos : Point) : Point :=
  match sec with
  | SectionName.Soma => neuronPos
  | SectionName.ApicalDendrite =>
    { x := neuronPos.x,
      y := neuronPos.y - neuron.morphology.somaDiam / 2
             - position * neuron.morphology.apicalL / 4 }
  | SectionName.BasalDendrite =>
    { x := neuronPos.x,
      y := neuronPos.y + neuron.morphology.somaDiam / 2
             + position * neuron.morphology.basalL / 4 }

/-- The condition in the contract of the connection hit test (specification, §4.2): the
target neuron of `conn` exists and the endpoint of `conn` on its target section
(`sectionEndpoint` at the layout position of the target neuron) is at Euclidean distance
at most 10 from `(x, y)`. -/
def EndpointWithinReach (neurons : List Neuron) (W H x y : ℚ) (conn : Connection) : Prop :=
  ∃ (i : Nat) (n : Neuron), neurons[i]? = some n ∧ some n.id = conn.targetId ∧
    Real.sqrt
        (((x - (specSectionEndpoint n conn.targetSection conn.position
            (specLayoutPosition W H neurons.length i)).x : ℚ) : ℝ) ^ 2
          + ((y - (specSectionEndpoint n conn.targetSection conn.position
            (specLayoutPosition W H neurons.length i)).y : ℚ) : ℝ) ^ 2)
      ≤ ((10 : ℚ) : ℝ)

/-- The section on which a connection onto `sec` ends for a neuron of morphology `m`: `sec`
itself when the neuron includes it, the soma otherwise. -/
def drawnSection (m : Morphology) (sec : SectionName) : SectionName :=
  match sec with
  | SectionName.Soma => SectionName.Soma
  | SectionName.ApicalDendrite =>
    if m.includeApical = true then SectionName.ApicalDendrite else SectionName.Soma
  | SectionName.BasalDendrite =>
    if m.includeBasal = true then SectionName.BasalDendrite else SectionName.Soma

/-- The condition `EndpointWithinReach` with the endpoint taken on the section of the
target neuron on which the connection ends (`drawnSection`): the target section when it is
included in the neuron, the soma otherwise. -/
def DrawnEndpointWithinReach (neurons : List Neuron) (W H x y : ℚ) (conn : Connection) :
    Prop :=
  ∃ (i : Nat) (n : Neuron), neurons[i]? = some n ∧ some n.id = conn.targetId ∧
    Real.sqrt
        (((x - (specSectionEndpoint n (drawnSection n.morphology conn.targetSection)
            conn.position (specLayoutPosition W H neurons.length i)).x : ℚ) : ℝ) ^ 2
          + ((y - (specSectionEndpoint n (drawnSection n.morphology conn.targetSection)
            conn.position (specLayoutPosition W H neurons.length i)).y : ℚ) : ℝ) ^ 2)
      ≤ ((10 : ℚ) : ℝ)

/-- The condition in the contract of the probe hit test (specification, §4.2): the target
neuron of `probe` exists and the position at which `probe` is drawn (`sectionEndpoint` at
the layout position of the target neuron) is at Euclidean distance at most 7 from
`(x, y)`. -/
def MarkerWithinReach (neurons : List Neuron) (W H x y : ℚ) (probe : Probe) : Prop :=
  ∃ (i : Nat) (n : Neuron), neurons[i]? = some n ∧ n.id = probe.targetId ∧
    Real.sqrt
        (((x - (specSectionEndpoint n probe.section_ probe.position
            (specLayoutPosition W H neurons.length i)).x : ℚ) : ℝ) ^ 2
          + ((y - (specSectionEndpoint n probe.section_ probe.position
            (specLayoutPosition W H neurons.length i)).y : ℚ) : ℝ) ^ 2)
      ≤ ((7 : ℚ) : ℝ)

/-! ## State updates -/

/-- The handler `removeNeuron(idToRemove)`. -/
def removeNeuron (s : State) (idToRemove : Id) : State :=
  { s with
    neurons := s.neurons.filter (fun n => decide (n.id ≠ idToRemove))
    connections := s.connections.filter
      (fun c => decide (c.sourceId ≠ some idToRemove ∧ c.targetId ≠ some idToRemove))
    stimulators := s.stimulators.filter (fun st => decide (st.targetId ≠ some idToRemove))
    probes := s.probes.filter (fun p => decide (p.targetId ≠ idToRemove))
    selectedNeuronId :=
      if s.selectedNeuronId = some idToRemove then
        ((s.neurons.filter (fun n => decide (n.id ≠ idToRemove))).head?).map (fun n => n.id)
      else s.selectedNeuronId }

/-- A morphology field together with its new value: the `(field, value)` pairs that
the configuration card passes to `updateMorphology`. -/
inductive MorphologyField where
  | somaDiam (value : ℚ)
  | includeApical (value : Bool)
  | apicalL (value : ℚ)
  | apicalDiam (value : ℚ)
  | includeBasal (value : Bool)
  | basalL (value : ℚ)
  | basalDiam (value : ℚ)
deriving DecidableEq

/-- The object `{ ...morphology, [field]: value }`. -/
def Morphology.set (m : Morphology) : MorphologyField → Morphology
  | MorphologyField.somaDiam v => { m with somaDiam := v }
  | MorphologyField.includeApical v => { m with includeApical := v }
  | MorphologyField.apicalL v => { m with apicalL := v }
  | MorphologyField.apicalDiam v => { m with apicalDiam := v }
  | MorphologyField.includeBasal v => { m with includeBasal := v }
  | MorphologyField.basalL v => { m with basalL := v }
  | MorphologyField.basalDiam v => { m with basalDiam := v }

/-- The handler `updateMorphology(field, value)`: it only calls `setNeurons`. -/
def updateMorphology (s : State) (field : MorphologyField) : State :=
  { s with neurons := s.neurons.map (fun n =>
      if some n.id = s.selectedNeuronId then { n with morphology := n.morphology.set field }
      else n) }

/-- The handler `addConnection(sourceId, targetId, synapseType, targetSection, position)`;
`newId` is the value of `uuid()`. -/
def addConnection (s : State) (newId : Id) (sourceId targetId : Option Id)
    (synapseType : SynapseType) (targetSection : SectionName) (position : ℚ) : State :=
  { s with connections := s.connections ++
      [{ id := newId, sourceId := sourceId, targetId := targetId, synapseType := synapseType,
         targetSection := targetSection, position := position, weight := 4 / 100, delay := 1 }] }

/-- The handler `addProbe(targetId, section, position)`; `newId` is the value of `uuid()`. -/
def addProbe (s : State) (newId : Id) (targetId : Id) (sec : SectionName) (position : ℚ) :
    State :=
  { s with probes := s.probes ++
      [{ id := newId, targetId := targetId, section_ := sec, position := position,
         color := getDistinctColor s.probes.length }] }

/-- The handler `removeProbe(id)`. -/
def removeProbe (s : State) (id : Id) : State :=
  { s with probes := s.probes.filter (fun p => decide (p.id ≠ id)) }

/-- The call `updateProbe(id, 'position', value)`. -/
def updateProbePosition (s : State) (id : Id) (value : ℚ) : State :=
  { s with probes := s.probes.map (fun p => if p.id = id then { p with position := value } else p) }

/-- The call `updateProbe(id, 'section', value)`. -/
def updateProbeSection (s : State) (id : Id) (value : SectionName) : State :=
  { s with probes := s.probes.map (fun p => if p.id = id then { p with section_ := value } else p) }

/-- A connection field together with its new value: the `(field, value)` pairs that the
connection manager passes to `updateConnection`. -/
inductive ConnectionField where
  | sourceId (value : Id)
  | targetId (value : Id)
  | synapseType (value : SynapseType)
  | targetSection (value : SectionName)
  | position (value : ℚ)
  | weight (value : ℚ)
  | delay (value : ℚ)
deriving DecidableEq

/-- The object `{ ...c, [field]: value }`. -/
def Connection.set (c : Connection) : ConnectionField → Connection
  | ConnectionField.sourceId v => { c with sourceId := some v }
  | ConnectionField.targetId v => { c with targetId := some v }
  | ConnectionField.synapseType v => { c with synapseType := v }
  | ConnectionField.targetSection v => { c with targetSection := v }
  | ConnectionField.position v => { c with position := v }
  | ConnectionField.weight v => { c with weight := v }
  | ConnectionField.delay v => { c with delay := v }

/-- The handler `updateConnection(id, field, value)`. -/
def updateConnection (s : State) (id : Id) (field : ConnectionField) : State :=
  { s with connections := s.connections.map (fun c => if c.id = id then c.set field else c) }

/-- The `onChange` of the section selector of probe `p` in the probe list (line 528),
with `newSection = e.target.value`. -/
def probeSectionChange (s : State) (p : Probe) (newSection : SectionName) : State :=
  if newSection = SectionName.Soma then
    { s with probes := s.probes.map (fun pr =>
        if pr.id = p.id then { pr with section_ := newSection, position := 1 / 2 } else pr) }
  else updateProbeSection s p.id newSection

/-- The `onChange` of the target selector of probe `p` in the probe list (line 528), with
`newTargetId = e.target.value`. -/
def probeTargetChange (s : State) (p : Probe) (newTargetId : Id) : State :=
  match s.neurons.find? (fun n => decide (n.id = newTargetId)) with
  | none => s
  | some targetNeuron =>
    let updatedProbe : Probe := { p with targetId := newTargetId }
    let updatedProbe : Probe :=
      if (p.section_ = SectionName.ApicalDendrite ∧ targetNeuron.morphology.includeApical = false)
          ∨ (p.section_ = SectionName.BasalDendrite
              ∧ targetNeuron.morphology.includeBasal = false) then
        { updatedProbe with section_ := SectionName.Soma, position := 1 / 2 }
      else updatedProbe
    { s with probes := s.probes.map (fun probe => if probe.id = p.id then updatedProbe else probe) }

/-- A step of a history of the probe list: a call of `addProbe` or of `removeProbe`. -/
inductive ProbeOp where
  | add (newId targetId : Id) (sec : SectionName) (position : ℚ)
  | remove (id : Id)
deriving DecidableEq

/-- The state after one step of a probe history. -/
def applyProbeOp (s : State) : ProbeOp → State
  | ProbeOp.add newId targetId sec position => addProbe s newId targetId sec position
  | ProbeOp.remove id => removeProbe s id

/-- The state after a history of `addProbe` / `removeProbe` calls, each made in the state
left by the previous one. -/
def applyProbeOps (s : State) (ops : List ProbeOp) : State :=
  ops.foldl applyProbeOp s

/-- The handler `addNeuron()`; `newId` is the value of `uuid()`. -/
def addNeuron (s : State) (newId : Id) : State :=
  { s with
    neurons := s.neurons ++
      [{ id := newId, name := "Neuron " ++ toString (s.neurons.length + 1),
         morphology := { somaDiam := 20, includeApical := true, apicalL := 400, apicalDiam := 2,
                         includeBasal := true, basalL := 200, basalDiam := 2 } }]
    selectedNeuronId := some newId }

/-- The `onClick` of the "Add Connection" button (line 522):
`addConnection(neurons[0]?.id, neurons[0]?.id, 'AMPA', 'Soma', 0.5)`. -/
def addConnectionButton (s : State) (newId : Id) : State :=
  addConnection s newId (s.neurons.head?.map Neuron.id) (s.neurons.head?.map Neuron.id)
    SynapseType.AMPA SectionName.Soma (1 / 2)

/-- The `onClick` of the "Add Probe to Selected" button (line 528):
`if (selectedNeuronId) addProbe(selectedNeuronId, 'Soma', 0.5)`. -/
def addProbeToSelected (s : State) (newId : Id) : State :=
  match s.selectedNeuronId with
  | some selectedNeuronId => addProbe s newId selectedNeuronId SectionName.Soma (1 / 2)
  | none => s

/-- The referential invariant of the data model, in the words of the specification: the
`sourceId` and `targetId` of every connection and the `targetId` of every probe reference
an existing neuron. -/
def ReferencesExist (s : State) : Prop :=
  (∀ c ∈ s.connections,
    (∃ n ∈ s.neurons, some n.id = c.sourceId) ∧ (∃ n ∈ s.neurons, some n.id = c.targetId)) ∧
  (∀ p ∈ s.probes, ∃ n ∈ s.neurons, n.id = p.targetId)

/-! ## Render effect -/

/-- The value that `canvas.width` (or `canvas.height`) holds after the assignment
`canvas.width = width` of the render effect (line 271): the attribute is an unsigned
integer, so the fraction of the size of the bounding rectangle (which is not negative) is
dropped. -/
def canvasAttribute (size : ℚ) : ℚ := ((⌊size⌋.toNat : Nat) : ℚ)

/-- The canvas as the render effect leaves it for a bounding rectangle of the given size
(lines 270-271); the hit tests read `canvas.width` and `canvas.height` from it. -/
def renderedCanvas (width height : ℚ) : Canvas :=
  { width := canvasAttribute width, height := canvasAttribute height }

/-- The centre `(neuronPos.x, probeY)` of the marker that the render effect draws for
`probe` (lines 312-323), for a surface of the given size; `none` when the effect returns
without drawing it. -/
def renderProbeCentre (neurons : List Neuron) (width height : ℚ) (probe : Probe) :
    Option Point :=
  match lookupPosition (neuronPositions neurons width height) (some probe.targetId),
        neurons.find? (fun n => decide (n.id = probe.targetId)) with
  | some neuronPos, some neuronData =>
    let somaDiam := neuronData.morphology.somaDiam
    let visualApicalL := neuronData.morphology.apicalL / 4
    let visualBasalL := neuronData.morphology.basalL / 4
    let probeY :=
      if probe.section_ = SectionName.Soma then neuronPos.y
      else if probe.section_ = SectionName.ApicalDendrite then
        neuronPos.y - (somaDiam / 2) - (probe.position * visualApicalL)
      else neuronPos.y + (somaDiam / 2) + (probe.position * visualBasalL)
    some { x := neuronPos.x, y := probeY }
  | _, _ => none

/-- The point `(targetX, targetY)` at which the render effect ends the edge of `conn` and
puts the tip of its arrowhead (lines 276-297); `none` when the effect returns without
drawing the connection. -/
def renderConnectionEnd (neurons : List Neuron) (width height : ℚ) (conn : Connection) :
    Option Point :=
  match lookupPosition (neuronPositions neurons width height) conn.sourceId,
        neurons.find? (fun n => decide (some n.id = conn.targetId)),
        lookupPosition (neuronPositions neurons width height) conn.targetId with
  | some _sourcePos, some targetNeuronData, some targetNeuronBasePos =>
    let targetX := targetNeuronBasePos.x
    let morpho := targetNeuronData.morphology
    let somaRadius := morpho.somaDiam / 2
    let targetY :=
      if conn.targetSection = SectionName.ApicalDendrite ∧ morpho.includeApical = true then
        targetNeuronBasePos.y - somaRadius - (conn.position * (morpho.apicalL / 4))
      else if conn.targetSection = SectionName.BasalDendrite ∧ morpho.includeBasal = true then
        targetNeuronBasePos.y + somaRadius + (conn.position * (morpho.basalL / 4))
      else targetNeuronBasePos.y
    some { x := targetX, y := targetY }
  | _, _, _ => none

/-- The handler `cancelDrawing()`. -/
def cancelDrawing (s : State) : State :=
  { s with connectionDrawMode := none, connectionStartPoint := none }

/-- The listener `handleKeyDown(e)` installed on `window`; `key` is `e.key`. -/
def handleKeyDown (s : State) (key : String) : State :=
  if key = "Escape" then cancelDrawing s else s

/-! ## Pointer handlers -/

/-- The handler `handleMouseDown`, at the surface point `(x, y)`. -/
def handleMouseDown (s : State) (x y : ℚ) : State :=
  if s.connectionDrawMode.isSome then s
  else
    match circuitSchematicRef s with
    | none => s
    | some _ =>
      let s1 := { s with wasDragged := false }
      match getHitConnection s x y with
      | some connectionHit => { s1 with draggedConnectionId := some connectionHit.id }
      | none =>
        match getHitProbe s x y with
        | some probeHit => { s1 with draggedProbeId := some probeHit.id }
        | none => s1

/-- The new position computed while dragging `probe` (not on the soma) over the neuron
`neuron`, with the pointer at height `y` (lines 361-370 of `handleMouseMove`).  The
definition is the code's for a dendrite of nonzero length; at length 0 the code divides by
zero (it stores 1, 0 or `NaN`), which rational division does not reproduce. -/
def probeDragPosition (probe : Probe) (neuron : Neuron) (canvas : Canvas) (y : ℚ) : ℚ :=
  let neuronY := canvas.height / 2
  let somaRadius := neuron.morphology.somaDiam / 2
  let newPosition :=
    if probe.section_ = SectionName.ApicalDendrite then
      let visualApicalL := neuron.morphology.apicalL / 4
      let apicalBottom := neuronY - somaRadius
      (apicalBottom - y) / visualApicalL
    else
      let visualBasalL := neuron.morphology.basalL / 4
      let basalTop := neuronY + somaRadius
      (y - basalTop) / visualBasalL
  clamp01 newPosition

/-- The handler `handleMouseMove`, at the surface point `(x, y)`. -/
def handleMouseMove (s : State) (x y : ℚ) : Outcome :=
  if s.mode ≠ Mode.individual then { state := s, error := none }
  else
    match circuitSchematicRef s with
    | none => { state := s, error := none }
    | some canvas =>
      let s1 := { s with mousePos := { x := x, y := y } }
      match s.draggedConnectionId, s.draggedProbeId with
      | some draggedConnectionId, _ =>
        let s2 := { s1 with wasDragged := true }
        match getHitNeuron s x y with
        | Except.error e => { state := s2, error := some e }
        | Except.ok none => { state := s2, error := none }
        | Except.ok (some hit) =>
          { state := { s2 with connections := s.connections.map (fun c =>
                if c.id = draggedConnectionId then
                  { c with targetId := some hit.neuron.id, targetSection := hit.section_,
                           position := hit.position }
                else c) },
            error := none }
      | none, some draggedProbeId =>
        let s2 := { s1 with wasDragged := true }
        match s.probes.find? (fun p => decide (p.id = draggedProbeId)) with
        | none => { state := s2, error := none }
        | some probe =>
          if probe.section_ = SectionName.Soma then { state := s2, error := none }
          else
            match s.neurons.find? (fun n => decide (n.id = probe.targetId)) with
            | none => { state := s2, error := some JsError.typeError }
            | some neuron =>
              { state := updateProbePosition s2 draggedProbeId
                           (probeDragPosition probe neuron canvas y),
                error := none }
      | none, none => { state := s1, error := none }

/-- The handler `handleMouseUp` (also bound to `onMouseLeave`). -/
def handleMouseUp (s : State) : State :=
  { s with draggedProbeId := none, draggedConnectionId := none }

/-- The handler `handleCanvasClick`, at the surface point `(clickX, clickY)`; `newId` is
the value `uuid()` returns if the handler creates an entity. -/
def handleCanvasClick (s : State) (newId : Id) (clickX clickY : ℚ) : Outcome :=
  if s.wasDragged then { state := { s with wasDragged := false }, error := none }
  else if s.mode ≠ Mode.individual then { state := s, error := none }
  else
    match circuitSchematicRef s with
    | none => { state := s, error := none }
    | some _ =>
      match s.connectionDrawMode with
      | some drawMode =>
        match getHitNeuron s clickX clickY with
        | Except.error e => { state := s, error := some e }
        | Except.ok none => { state := s, error := none }
        | Except.ok (some hit) =>
          match s.connectionStartPoint with
          | none =>
            let start : StartPoint :=
              { neuronId := hit.neuron.id, x := hit.neuronPos.x, y := hit.neuronPos.y }
            { state := { s with connectionStartPoint := some start }, error := none }
          | some start =>
            { state := cancelDrawing (addConnection s newId (some start.neuronId)
                         (some hit.neuron.id) drawMode hit.section_ hit.position),
              error := none }
      | none =>
        match getHitProbe s clickX clickY with
        | some probeHit => { state := removeProbe s probeHit.id, error := none }
        | none =>
          match getHitNeuron s clickX clickY with
          | Except.error e => { state := s, error := some e }
          | Except.ok none => { state := s, error := none }
          | Except.ok (some neuronHit) =>
            { state := addProbe s newId neuronHit.neuron.id neuronHit.section_
                         neuronHit.position,
              error := none }

/-- The `onClick` of the "+ AMPA" / "+ GABA" buttons:
`setConnectionDrawMode(connectionDrawMode === type ? null : type)`. -/
def toggleDrawMode (s : State) (type : SynapseType) : State :=
  { s with connectionDrawMode := if s.connectionDrawMode = some type then none else some type }

/-! ## Example data -/

/-- The morphology given to every new neuron by `useState` / `addNeuron`. -/
def defaultMorphology : Morphology :=
  { somaDiam := 20, includeApical := true, apicalL := 400, apicalDiam := 2,
    includeBasal := true, basalL := 200, basalDiam := 2 }

/-- Two neurons as created by the initial state followed by "Add Neuron". -/
def twoNeurons : List Neuron :=
  [{ id := "n1", name := "Principal Cell", morphology := defaultMorphology },
   { id := "n2", name := "Neuron 2", morphology := defaultMorphology }]

/-- An idle editor showing `twoNeurons` on a 300 x 200 canvas, with no connection,
stimulator or probe. -/
def twoNeuronState : State :=
  { mode := Mode.individual, neurons := twoNeurons, connections := [], stimulators := [],
    probes := [], selectedNeuronId := some "n1", draggedProbeId := none,
    draggedConnectionId := none, connectionDrawMode := none, connectionStartPoint := none,
    mousePos := { x := 0, y := 0 }, wasDragged := false,
    canvas := { width := 300, height := 200 } }

/-- A probe on the apical dendrite of neuron `n1`, at position 0.7. -/
def apicalProbe : Probe :=
  { id := "p1", targetId := "n1", section_ := SectionName.ApicalDendrite, position := 7 / 10,
    color := "#e6194b" }

/-- A probe on the basal dendrite of neuron `n1`, at position 0.7. -/
def basalProbe : Probe :=
  { id := "p2", targetId := "n1", section_ := SectionName.BasalDendrite, position := 7 / 10,
    color := "#3cb44b" }

/-- The first of `twoNeurons`. -/
def neuron1 : Neuron :=
  { id := "n1", name := "Principal Cell", morphology := defaultMorphology }

/-- The state `twoNeuronState` with one connection ending on the soma of `n2` and one
probe on the soma of `n2`: the endpoint and the probe marker are both at `(200, 100)`. -/
def overlapState : State :=
  { twoNeuronState with
    connections := [{ id := "c1", sourceId := some "n1", targetId := some "n2",
                      synapseType := SynapseType.AMPA, targetSection := SectionName.Soma,
                      position := 1 / 2, weight := 4 / 100, delay := 1 }]
    probes := [{ id := "p1", targetId := "n2", section_ := SectionName.Soma,
                 position := 1 / 2, color := "#e6194b" }] }

/-- A connection from `n1` to the soma of `n2` with the given id. -/
def somaConnection (id : Id) : Connection :=
  { id := id, sourceId := some "n1", targetId := some "n2", synapseType := SynapseType.AMPA,
    targetSection := SectionName.Soma, position := 1 / 2, weight := 4 / 100, delay := 1 }

/-- The state `twoNeuronState` with two connections that both end on the soma of `n2`. -/
def twoConnectionState : State :=
  { twoNeuronState with connections := [somaConnection "c1", somaConnection "c2"] }

/-- A connection from `n2` onto the apical dendrite of `n1`, at position 0.7. -/
def apicalConnection : Connection :=
  { id := "c1", sourceId := some "n2", targetId := some "n1", synapseType := SynapseType.AMPA,
    targetSection := SectionName.ApicalDendrite, position := 7 / 10, weight := 4 / 100,
    delay := 1 }

/-- The state `twoNeuronState` (neuron `n1` selected) with a probe and a connection
endpoint on the apical dendrite of `n1`, both at position 0.7. -/
def apicalState : State :=
  { twoNeuronState with connections := [apicalConnection], probes := [apicalProbe] }

/-- A probe on the soma of `n2` with the given id. -/
def somaProbe (id : Id) : Probe :=
  { id := id, targetId := "n2", section_ := SectionName.Soma, position := 1 / 2,
    color := "#e6194b" }

/-- The state `twoNeuronState` with two probes that are both drawn on the soma of `n2`. -/
def twoProbeState : State :=
  { twoNeuronState with probes := [somaProbe "p1", somaProbe "p2"] }

/-- The editor as it starts: one default neuron on a 300 x 200 canvas, centred at
`(150, 100)`, with no connection, stimulator or probe. -/
def oneNeuronState : State :=
  { twoNeuronState with neurons := [neuron1] }

/-- The default neuron `n1` with soma diameter 50. -/
def wideSomaNeuron : Neuron :=
  { id := "n1", name := "Principal Cell",
    morphology := { defaultMorphology with somaDiam := 50 } }

/-- The default neuron `n2` with soma diameter 10. -/
def narrowSomaNeuron : Neuron :=
  { id := "n2", name := "Neuron 2", morphology := { defaultMorphology with somaDiam := 10 } }

/-- Two neurons on a 60 x 200 canvas, centred at `(20, 100)` and `(40, 100)`: the first
with soma diameter 50, the second (created later) with soma diameter 10 and an apical
shaft that runs from height 95 up to height -5, through the soma disk of the first. -/
def crowdedState : State :=
  { twoNeuronState with
    neurons := [wideSomaNeuron, narrowSomaNeuron]
    canvas := { width := 60, height := 200 } }

/-- The default neuron `n2` without basal dendrite. -/
def noBasalNeuron : Neuron :=
  { id := "n2", name := "Neuron 2",
    morphology := { defaultMorphology with includeBasal := false } }

/-- The state `twoNeuronState` in which the later-created neuron `n2` has no basal
dendrite. -/
def noBasalState : State :=
  { twoNeuronState with neurons := [neuron1, noBasalNeuron] }

/-- The state `twoNeuronState` in AMPA drawing mode with the start point captured on
`n2`. -/
def drawingState : State :=
  { twoNeuronState with
    connectionDrawMode := some SynapseType.AMPA
    connectionStartPoint := some { neuronId := "n2", x := 200, y := 100 } }

/-- A history of the probe list: two probes are created, the first is removed, a third is
created. -/
def probeHistory : List ProbeOp :=
  [ProbeOp.add "a" "n1" SectionName.Soma (1 / 2), ProbeOp.add "b" "n1" SectionName.Soma (1 / 2),
   ProbeOp.remove "a", ProbeOp.add "c" "n2" SectionName.Soma (1 / 2)]

/-- The default neuron `n1` without basal dendrite. -/
def bareNeuron1 : Neuron :=
  { id := "n1", name := "Principal Cell",
    morphology := { defaultMorphology with includeBasal := false } }

/-- Two neurons without basal dendrite on a 300 x 200 canvas, while the connection `c1`
(from `n1` to the soma of `n2`) is being dragged by its endpoint; a second connection `c2`
is present. -/
def connectionDragState : State :=
  { twoNeuronState with
    neurons := [bareNeuron1, noBasalNeuron]
    connections := [somaConnection "c1", somaConnection "c2"]
    draggedConnectionId := some "c1" }

/-- The state `twoNeuronState` while the probe `p1`, on the apical dendrite of `n1` at
position 0.7, is being dragged. -/
def probeDragState : State :=
  { twoNeuronState with probes := [apicalProbe], draggedProbeId := some "p1" }

/-- The editor after its only neuron has been removed: no neuron, connection or probe. -/
def emptyState : State :=
  { twoNeuronState with neurons := [], selectedNeuronId := none }

/-- A connection onto the soma of `n1` whose source neuron `n3` does not exist. -/
def danglingSourceConnection : Connection :=
  { id := "c9", sourceId := some "n3", targetId := some "n1", synapseType := SynapseType.AMPA,
    targetSection := SectionName.Soma, position := 1 / 2, weight := 4 / 100, delay := 1 }

/-- Two neurons without basal dendrite on a 300 x 200 canvas, idle, with no connection,
stimulator or probe. -/
def bareState : State :=
  { twoNeuronState with neurons := [bareNeuron1, noBasalNeuron] }

/-- The state `twoNeuronState` with a probe on the apical dendrite of `n1` and the
connection `danglingSourceConnection`, whose source neuron does not exist. -/
def danglingSourceState : State :=
  { twoNeuronState with connections := [danglingSourceConnection], probes := [apicalProbe] }

/-- A second connection from `n2` onto the apical dendrite of `n1`, at position 0.7. -/
def apicalConnection2 : Connection :=
  { apicalConnection with id := "c2" }

/-- The state `twoNeuronState` with two connections that both end on the apical dendrite
of `n1` at position 0.7, that is at `(100, 20)`. -/
def twoApicalConnectionState : State :=
  { twoNeuronState with connections := [apicalConnection, apicalConnection2] }

/-- A second probe on the apical dendrite of `n1`, at position 0.7. -/
def apicalProbe2 : Probe :=
  { apicalProbe with id := "p2" }

/-- The state `twoNeuronState` with two probes that are both drawn on the apical dendrite
of `n1` at position 0.7, that is at `(100, 20)`. -/
def twoApicalProbeState : State :=
  { twoNeuronState with probes := [apicalProbe, apicalProbe2] }

/-- The default neuron `n1` with its apical dendrite disabled. -/
def noApicalNeuron1 : Neuron :=
  { id := "n1", name := "Principal Cell",
    morphology := { defaultMorphology with includeApical := false } }

/-- The state `apicalState` after the apical dendrite of `n1` was disabled: the connection
`c1` and the probe `p1` still reference the apical dendrite of `n1` at position 0.7. -/
def disabledApicalState : State :=
  { apicalState with
    neurons := [noApicalNeuron1,
                { id := "n2", name := "Neuron 2", morphology := defaultMorphology }] }

/-! ## Theorems -/

/-! ### Arithmetic helpers -/

/-- The test `withinDistance` is the comparison of the Euclidean norm with `r`. -/
theorem withinDistance_iff_sqrt (dx dy r : ℚ) :
    withinDistance dx dy r = true ↔ Real.sqrt ((dx : ℝ) ^ 2 + (dy : ℝ) ^ 2) ≤ (r : ℝ) := by
  unfold withinDistance
  rw [decide_eq_true_iff, Real.sqrt_le_iff]
  constructor
  · rintro ⟨h0, h1⟩
    exact ⟨by exact_mod_cast h0, by exact_mod_cast h1⟩
  · rintro ⟨h0, h1⟩
    exact ⟨by exact_mod_cast h0, by exact_mod_cast h1⟩

/-- A value already in `[0, 1]` is left alone by the clamp. -/
theorem clamp01_of_mem {v : ℚ} (h0 : 0 ≤ v) (h1 : v ≤ 1) : clamp01 v = v := by
  unfold clamp01
  rw [min_eq_right h1, max_eq_right h0]

/-- The clamp lands in `[0, 1]`. -/
theorem clamp01_mem (v : ℚ) : 0 ≤ clamp01 v ∧ clamp01 v ≤ 1 := by
  unfold clamp01
  exact ⟨le_max_left _ _, max_le (by norm_num) (min_le_left _ _)⟩

/-- The clamp of a value at least `1` is `1`. -/
theorem clamp01_of_one_le {v : ℚ} (h : 1 ≤ v) : clamp01 v = 1 := by
  unfold clamp01
  rw [min_eq_left h, max_eq_right (by norm_num)]

/-- The clamp of a non-positive value is `0`. -/
theorem clamp01_of_nonpos {v : ℚ} (h : v ≤ 0) : clamp01 v = 0 := by
  unfold clamp01
  exact max_eq_left (le_trans (min_le_right _ _) h)

/-! ### Lookups -/

/-- The search `find?` returns an element that satisfies the test and is the only
one of the list to do so. -/
theorem find?_eq_some_of_unique {α : Type} (p : α → Bool) (a : α) :
    ∀ l : List α, a ∈ l → p a = true → (∀ b ∈ l, p b = true → b = a) →
      l.find? p = some a := by
  intro l
  induction l with
  | nil => intro h; cases h
  | cons b l ih =>
    intro hmem hp huniq
    rw [List.find?_cons]
    cases hb : p b with
    | true =>
      have : b = a := huniq b (List.mem_cons_self _ _) hb
      simp [this]
    | false =>
      have hne : a ≠ b := by
        intro h; rw [h, hb] at hp; cases hp
      have hmem2 : a ∈ l := by
        rcases List.mem_cons.mp hmem with h | h
        · exact absurd h hne
        · exact h
      exact ih hmem2 hp (fun c hc => huniq c (List.mem_cons_of_mem _ hc))

/-- Members of `neurons.enum` with the id of neuron `i` are the entry `i`, when ids
are pairwise distinct. -/
theorem enum_entry_unique (neurons : List Neuron) (hnd : (neurons.map Neuron.id).Nodup)
    (i : Nat) (hi : i < neurons.length) (e : Nat × Neuron) (he : e ∈ neurons.enum)
    (hid : e.2.id = (neurons.get ⟨i, hi⟩).id) : e = (i, neurons.get ⟨i, hi⟩) := by
  have hlt : e.1 < neurons.length := List.fst_lt_of_mem_enum he
  have hget : neurons[e.1]? = some e.2 := List.mem_enum_iff_getElem?.mp he
  have he2 : neurons[e.1] = e.2 := by
    rw [List.getElem?_eq_getElem hlt] at hget
    exact Option.some.inj hget
  have hlt2 : e.1 < (neurons.map Neuron.id).length := by simpa using hlt
  have hi2 : i < (neurons.map Neuron.id).length := by simpa using hi
  have h1 : (neurons.map Neuron.id).get ⟨e.1, hlt2⟩ = (neurons.map Neuron.id).get ⟨i, hi2⟩ := by
    simp [he2, hid]
  have hidx : e.1 = i := Fin.mk.inj ((List.Nodup.get_inj_iff hnd).mp h1)
  obtain ⟨a, b⟩ := e
  simp only at hidx he2
  subst hidx
  simp [he2]



/-- With pairwise distinct ids, `findNeuron` finds neuron `i` by its id, with its index. -/
theorem findNeuron_get (neurons : List Neuron) (hnd : (neurons.map Neuron.id).Nodup)
    (i : Nat) (hi : i < neurons.length) :
    findNeuron neurons (some (neurons.get ⟨i, hi⟩).id) = some (i, neurons.get ⟨i, hi⟩) := by
  unfold findNeuron
  apply find?_eq_some_of_unique
  · rw [List.mem_enum_iff_getElem?]
    simp [List.getElem?_eq_getElem hi]
  · simp
  · intro e he hp
    have hid : e.2.id = (neurons.get ⟨i, hi⟩).id := by simpa using hp
    exact enum_entry_unique neurons hnd i hi e he hid

/-- The table built by the `forEach` holds, at a key that only entries of index `i`
carry, the centre computed for index `i`. -/
theorem foldl_assignPosition (width height : ℚ) (length : Nat) (key : Id) (i : Nat) :
    ∀ (entries : List (Nat × Neuron)) (table : Id → Option Point),
      (∀ e ∈ entries, e.2.id = key → e.1 = i) →
      ((∃ e ∈ entries, e.2.id = key) ∨ table key = some (neuronPos width height length i)) →
      entries.foldl (assignPosition width height length) table key
        = some (neuronPos width height length i) := by
  intro entries
  induction entries with
  | nil =>
    intro table _ h
    rcases h with ⟨e, he, _⟩ | h
    · cases he
    · simpa using h
  | cons a rest ih =>
    intro table huniq h
    rw [List.foldl_cons]
    apply ih
    · intro e he hk
      exact huniq e (List.mem_cons_of_mem _ he) hk
    · by_cases ha : a.2.id = key
      · right
        have hai : a.1 = i := huniq a (List.mem_cons_self _ _) ha
        simp [assignPosition, ha, hai]
      · rcases h with ⟨e, he, hk⟩ | h
        · rcases List.mem_cons.mp he with h1 | h1
          · exact absurd (h1 ▸ hk) ha
          · exact Or.inl ⟨e, h1, hk⟩
        · right
          have hne : ¬ key = a.2.id := fun h2 => ha h2.symm
          simp [assignPosition, hne, h]

/-- With pairwise distinct ids, `neuronPositions[neurons[i].id]` is the centre computed
for index `i`. -/
theorem neuronPositions_get (neurons : List Neuron) (width height : ℚ)
    (hnd : (neurons.map Neuron.id).Nodup) (i : Nat) (hi : i < neurons.length) :
    neuronPositions neurons width height (neurons.get ⟨i, hi⟩).id
      = some (neuronPos width height neurons.length i) := by
  unfold neuronPositions
  apply foldl_assignPosition
  · intro e he hk
    have := enum_entry_unique neurons hnd i hi e he hk
    rw [this]
  · left
    refine ⟨(i, neurons.get ⟨i, hi⟩), ?_, rfl⟩
    rw [List.mem_enum_iff_getElem?]
    simp [List.getElem?_eq_getElem hi]

/-! ### The neuron hit test -/

/-- A hit returned by the loop body names the neuron tested and the centre computed
for its index. -/
theorem hitNeuronAt_some (width height : ℚ) (length : Nat) (x y : ℚ) (index : Nat)
    (neuron : Neuron) (hit : Hit)
    (h : hitNeuronAt width height length x y index neuron = Except.ok (some hit)) :
    hit.neuron = neuron ∧ hit.neuronPos = neuronPos width height length index := by
  unfold hitNeuronAt at h
  simp only [basalBottomInit] at h
  split_ifs at h <;> first
    | (injection h with h; injection h with h; subst h; exact ⟨rfl, rfl⟩)
    | cases h

/-- A hit returned by the loop was returned by the loop body for one of the entries. -/
theorem getHitNeuronLoop_some (width height : ℚ) (length : Nat) (x y : ℚ) (hit : Hit) :
    ∀ entries : List (Nat × Neuron),
      getHitNeuronLoop width height length x y entries = Except.ok (some hit) →
      ∃ e ∈ entries, hitNeuronAt width height length x y e.1 e.2 = Except.ok (some hit) := by
  intro entries
  induction entries with
  | nil => intro h; simp [getHitNeuronLoop] at h
  | cons a rest ih =>
    intro h
    unfold getHitNeuronLoop at h
    split at h
    · cases h
    · next hit2 heq =>
      injection h with h; injection h with h; subst h
      exact ⟨a, List.mem_cons_self _ _, heq⟩
    · obtain ⟨e, he, hh⟩ := ih h
      exact ⟨e, List.mem_cons_of_mem _ he, hh⟩

/-- A hit returned by `getHitNeuron` names a neuron of the list, at some index, with
the centre computed for that index from the canvas size. -/
theorem getHitNeuron_some (s : State) (x y : ℚ) (hit : Hit)
    (h : getHitNeuron s x y = Except.ok (some hit)) :
    s.mode = Mode.individual ∧
    ∃ i, ∃ hi : i < s.neurons.length, hit.neuron = s.neurons.get ⟨i, hi⟩ ∧
      hit.neuronPos = neuronPos s.canvas.width s.canvas.height s.neurons.length i ∧
      hitNeuronAt s.canvas.width s.canvas.height s.neurons.length x y i
        (s.neurons.get ⟨i, hi⟩) = Except.ok (some hit) := by
  unfold getHitNeuron circuitSchematicRef at h
  by_cases hm : s.mode = Mode.individual
  · simp only [hm, if_true] at h
    obtain ⟨e, he, hh⟩ := getHitNeuronLoop_some _ _ _ _ _ _ _ h
    have he2 : e ∈ s.neurons.enum := List.mem_reverse.mp he
    have hlt : e.1 < s.neurons.length := List.fst_lt_of_mem_enum he2
    have hget : s.neurons[e.1]? = some e.2 := List.mem_enum_iff_getElem?.mp he2
    have heq : s.neurons.get ⟨e.1, hlt⟩ = e.2 := by
      rw [List.getElem?_eq_getElem hlt] at hget
      exact Option.some.inj hget
    obtain ⟨hn, hp⟩ := hitNeuronAt_some _ _ _ _ _ _ _ _ hh
    refine ⟨hm, e.1, hlt, ?_, hp, ?_⟩
    · rw [hn, heq]
    · rw [heq]; exact hh
  · simp [hm] at h

/-! ### C1: layout -/

/-- C1. Layout.  For every surface width `W` and height `H`, every neuron list of length
`N ≥ 1` and every index `i < N`, neuron `i` is centred at `x = W/(N+1)*(i+1)`, `y = H/2`:
in the table `neuronPositions` that the render effect and `getHitConnection` build and
read by id, in every hit `getHitNeuron` reports for neuron `i`, in the point
`getHitProbe` measures to for a soma probe on neuron `i`, and in the point
`getHitConnection` measures to for a soma connection onto neuron `i`; for `W > 0` the
x-coordinates are strictly increasing in `i`.  The lookups by id find neuron `i` because
ids are pairwise distinct (they are fresh `uuid()` values). -/
theorem layout_centres_neuron (W H : ℚ) (neurons : List Neuron) (i : Nat)
    (hi : i < neurons.length) :
    ((neurons.map Neuron.id).Nodup →
        neuronPositions neurons W H (neurons[i]).id
          = some { x := W / ((neurons.length : ℚ) + 1) * ((i : ℚ) + 1), y := H / 2 }) ∧
    (∀ (x y : ℚ) (hit : Hit),
        hitNeuronAt W H neurons.length x y i neurons[i] = Except.ok (some hit) →
        hit.neuronPos = { x := W / ((neurons.length : ℚ) + 1) * ((i : ℚ) + 1), y := H / 2 }) ∧
    ((neurons.map Neuron.id).Nodup → ∀ probe : Probe,
        probe.targetId = (neurons[i]).id → probe.section_ = SectionName.Soma →
        probeTarget neurons W H probe
          = some { x := W / ((neurons.length : ℚ) + 1) * ((i : ℚ) + 1), y := H / 2 }) ∧
    ((neurons.map Neuron.id).Nodup → ∀ conn : Connection,
        conn.targetId = some (neurons[i]).id → conn.targetSection = SectionName.Soma →
        connectionTarget neurons W H conn
          = some { x := W / ((neurons.length : ℚ) + 1) * ((i : ℚ) + 1), y := H / 2 }) ∧
    (0 < W → ∀ j : Nat, i < j →
        W / ((neurons.length : ℚ) + 1) * ((i : ℚ) + 1)
          < W / ((neurons.length : ℚ) + 1) * ((j : ℚ) + 1)) := by
  refine ⟨?_, ?_, ?_, ?_, ?_⟩
  · intro hnd
    exact neuronPositions_get neurons W H hnd i hi
  · intro x y hit h
    exact (hitNeuronAt_some _ _ _ _ _ _ _ _ h).2
  · intro hnd probe ht hs
    have hf := findNeuron_get neurons hnd i hi
    simp only [List.get_eq_getElem] at hf
    unfold probeTarget
    rw [ht, hf]
    simp [sectionY, hs]
  · intro hnd conn ht hs
    have hf := findNeuron_get neurons hnd i hi
    have hp := neuronPositions_get neurons W H hnd i hi
    simp only [List.get_eq_getElem] at hf hp
    unfold connectionTarget
    rw [ht, hf]
    simp [lookupPosition, hp, hs, neuronPos]
  · intro hW j hij
    have hN : (0 : ℚ) < (neurons.length : ℚ) + 1 := by positivity
    have hq : (0 : ℚ) < W / ((neurons.length : ℚ) + 1) := div_pos hW hN
    have hc : ((i : ℚ) + 1) < ((j : ℚ) + 1) := by
      have : (i : ℚ) < (j : ℚ) := by exact_mod_cast hij
      linarith
    exact mul_lt_mul_of_pos_left hc hq

/-- C1 at the two default neurons on a 300 x 200 surface: neuron 0 is centred at
`(100, 100)` and lies left of neuron 1. -/
theorem layout_centres_neuron_witness :
    neuronPositions twoNeurons 300 200 "n1" = some { x := 100, y := 100 } ∧
    (∀ (x y : ℚ) (hit : Hit),
        hitNeuronAt 300 200 2 x y 0
            { id := "n1", name := "Principal Cell", morphology := defaultMorphology }
          = Except.ok (some hit) →
        hit.neuronPos = { x := 100, y := 100 }) ∧
    (300 : ℚ) / ((2 : ℕ) + 1) * ((0 : ℕ) + 1) < 300 / ((2 : ℕ) + 1) * ((1 : ℕ) + 1) := by
  have h := layout_centres_neuron 300 200 twoNeurons 0 (by decide)
  obtain ⟨h1, h2, _, _, h5⟩ := h
  have hnd : (twoNeurons.map Neuron.id).Nodup := by decide
  refine ⟨?_, ?_, ?_⟩
  · refine (h1 hnd).trans ?_
    simp [twoNeurons]
    norm_num
  · intro x y hit hh
    refine (h2 x y hit hh).trans ?_
    simp [twoNeurons]
    norm_num
  · have := h5 (by norm_num) 1 (by decide)
    simpa [twoNeurons] using this

/-! ### C2, C3: the inverse mapping -/

/-- The quotient `(b - (b - p * q)) / q` is `p` for `q ≠ 0`. -/
theorem sub_sub_mul_div (b p q : ℚ) (hq : q ≠ 0) : (b - (b - p * q)) / q = p := by
  field_simp

/-- The quotient `(b + p * q - b) / q` is `p` for `q ≠ 0`. -/
theorem add_mul_sub_div (b p q : ℚ) (hq : q ≠ 0) : (b + p * q - b) / q = p := by
  field_simp

/-- C2. Round trip.  For every canvas, neuron (any soma radius), position `p` in `[0, 1]`
and dendrite of positive length: the drawn height of the apical point
(`neuronY - somaRadius - p * L/4`) is mapped back to exactly `p` by the inverse mapping of
the probe drag (`handleMouseMove`) and by the one of `getHitNeuron` (lines 399-400), which
every apical hit of `getHitNeuron` at that height reports; likewise the drawn height of
the basal point (`neuronY + somaRadius + p * L/4`) is mapped back to `p` by the probe drag
and by the expression of `getHitNeuron` (lines 406-407). -/
theorem inverse_mapping_round_trip (canvas : Canvas) (neuron : Neuron) (probe : Probe)
    (neuronY p : ℚ) (hp0 : 0 ≤ p) (hp1 : p ≤ 1) :
    (0 < neuron.morphology.apicalL →
      (probe.section_ = SectionName.ApicalDendrite →
        probeDragPosition probe neuron canvas
          (sectionY (canvas.height / 2) (neuron.morphology.somaDiam / 2) neuron.morphology
            SectionName.ApicalDendrite p) = p) ∧
      apicalPositionAt (neuronY - neuron.morphology.somaDiam / 2)
          (neuron.morphology.apicalL / 4)
          (sectionY neuronY (neuron.morphology.somaDiam / 2) neuron.morphology
            SectionName.ApicalDendrite p) = p ∧
      (∀ (W H x : ℚ) (N i : Nat) (hit : Hit),
        hitNeuronAt W H N x
          (sectionY (H / 2) (neuron.morphology.somaDiam / 2) neuron.morphology
            SectionName.ApicalDendrite p) i neuron = Except.ok (some hit) →
        hit.section_ = SectionName.ApicalDendrite → hit.position = p)) ∧
    (0 < neuron.morphology.basalL →
      (probe.section_ = SectionName.BasalDendrite →
        probeDragPosition probe neuron canvas
          (sectionY (canvas.height / 2) (neuron.morphology.somaDiam / 2) neuron.morphology
            SectionName.BasalDendrite p) = p) ∧
      basalPositionAt (neuronY + neuron.morphology.somaDiam / 2)
          (neuron.morphology.basalL / 4)
          (sectionY neuronY (neuron.morphology.somaDiam / 2) neuron.morphology
            SectionName.BasalDendrite p) = p) := by
  have key1 : ∀ b : ℚ, 0 < neuron.morphology.apicalL →
      apicalPositionAt b (neuron.morphology.apicalL / 4)
        (b - p * (neuron.morphology.apicalL / 4)) = p := by
    intro b hL
    unfold apicalPositionAt
    simp only
    rw [sub_sub_mul_div _ _ _ (by positivity)]
    exact clamp01_of_mem hp0 hp1
  have key2 : ∀ b : ℚ, 0 < neuron.morphology.basalL →
      basalPositionAt b (neuron.morphology.basalL / 4)
        (b + p * (neuron.morphology.basalL / 4)) = p := by
    intro b hL
    unfold basalPositionAt
    simp only
    rw [add_mul_sub_div _ _ _ (by positivity)]
    exact clamp01_of_mem hp0 hp1
  refine ⟨fun hL => ⟨?_, ?_, ?_⟩, fun hL => ⟨?_, ?_⟩⟩
  · intro hs
    have := key1 (canvas.height / 2 - neuron.morphology.somaDiam / 2) hL
    simpa [probeDragPosition, hs, sectionY, apicalPositionAt] using this
  · simpa [sectionY] using key1 (neuronY - neuron.morphology.somaDiam / 2) hL
  · intro W H x N i hit h hsec
    unfold hitNeuronAt at h
    simp only [basalBottomInit] at h
    have hk := key1 (H / 2 - neuron.morphology.somaDiam / 2) hL
    split_ifs at h
    all_goals cases h
    · exact absurd hsec (by simp)
    · simpa [sectionY, neuronPos] using hk
  · intro hs
    have := key2 (canvas.height / 2 + neuron.morphology.somaDiam / 2) hL
    simpa [probeDragPosition, hs, sectionY, basalPositionAt] using this
  · simpa [sectionY] using key2 (neuronY + neuron.morphology.somaDiam / 2) hL

/-- C2 at the default neuron on a canvas of height 200: position 0.7 on the apical
dendrite is drawn at height 20 and dragging a probe to height 20 gives back 0.7; on the
basal dendrite it is drawn at height 145 and that height gives back 0.7. -/
theorem inverse_mapping_round_trip_witness :
    probeDragPosition apicalProbe neuron1 { width := 300, height := 200 } 20 = 7 / 10 ∧
    probeDragPosition basalProbe neuron1 { width := 300, height := 200 } 145 = 7 / 10 := by
  have ha := (inverse_mapping_round_trip { width := 300, height := 200 } neuron1 apicalProbe
    100 (7 / 10) (by norm_num) (by norm_num)).1 (by norm_num [neuron1, defaultMorphology])
  have hb := (inverse_mapping_round_trip { width := 300, height := 200 } neuron1 basalProbe
    100 (7 / 10) (by norm_num) (by norm_num)).2 (by norm_num [neuron1, defaultMorphology])
  have h1 := ha.1 rfl
  have h2 := hb.1 rfl
  have e1 : sectionY ((200 : ℚ) / 2) (neuron1.morphology.somaDiam / 2) neuron1.morphology
      SectionName.ApicalDendrite (7 / 10) = 20 := by
    norm_num [sectionY, neuron1, defaultMorphology]
  have e2 : sectionY ((200 : ℚ) / 2) (neuron1.morphology.somaDiam / 2) neuron1.morphology
      SectionName.BasalDendrite (7 / 10) = 145 := by
    norm_num [sectionY, neuron1, defaultMorphology]
  simp only [e1] at h1
  simp only [e2] at h2
  exact ⟨h1, h2⟩

/-- C3. Clamping.  For every probe being dragged, neuron and pointer height `y`, the
position computed by the probe drag lies in `[0, 1]`; for a dendrite of positive length it
is exactly 1 when `y` is at or beyond the distal tip of the drawn span and exactly 0 when
`y` is at or beyond its soma-side end (apical: tip above, at `neuronY - r - L/4`; basal:
tip below, at `neuronY + r + L/4`). -/
theorem probe_drag_position_clamped (probe : Probe) (neuron : Neuron) (canvas : Canvas)
    (y : ℚ) :
    (0 ≤ probeDragPosition probe neuron canvas y ∧
      probeDragPosition probe neuron canvas y ≤ 1) ∧
    (probe.section_ = SectionName.ApicalDendrite → 0 < neuron.morphology.apicalL →
      (y ≤ canvas.height / 2 - neuron.morphology.somaDiam / 2
            - neuron.morphology.apicalL / 4 →
          probeDragPosition probe neuron canvas y = 1) ∧
      (canvas.height / 2 - neuron.morphology.somaDiam / 2 ≤ y →
          probeDragPosition probe neuron canvas y = 0)) ∧
    (probe.section_ = SectionName.BasalDendrite → 0 < neuron.morphology.basalL →
      (canvas.height / 2 + neuron.morphology.somaDiam / 2
            + neuron.morphology.basalL / 4 ≤ y →
          probeDragPosition probe neuron canvas y = 1) ∧
      (y ≤ canvas.height / 2 + neuron.morphology.somaDiam / 2 →
          probeDragPosition probe neuron canvas y = 0)) := by
  refine ⟨?_, ?_, ?_⟩
  · unfold probeDragPosition
    exact clamp01_mem _
  · intro hs hL
    have hq : (0 : ℚ) < neuron.morphology.apicalL / 4 := by positivity
    constructor
    · intro hy
      simp only [probeDragPosition, hs, if_true]
      apply clamp01_of_one_le
      rw [one_le_div hq]
      linarith
    · intro hy
      simp only [probeDragPosition, hs, if_true]
      apply clamp01_of_nonpos
      apply div_nonpos_of_nonpos_of_nonneg _ hq.le
      linarith
  · intro hs hL
    have hq : (0 : ℚ) < neuron.morphology.basalL / 4 := by positivity
    constructor
    · intro hy
      simp only [probeDragPosition, hs]
      apply clamp01_of_one_le
      simp only [reduceCtorEq, if_false]
      rw [one_le_div hq]
      linarith
    · intro hy
      simp only [probeDragPosition, hs]
      apply clamp01_of_nonpos
      simp only [reduceCtorEq, if_false]
      apply div_nonpos_of_nonpos_of_nonneg _ hq.le
      linarith

/-- C3 at the default neuron on a canvas of height 200 (apical span from height 90 up
to the tip at height -10): a pointer at height -30, beyond the tip, gives position 1, and
a pointer at height 95, below the soma-side end, gives position 0. -/
theorem probe_drag_position_clamped_witness :
    probeDragPosition apicalProbe neuron1 { width := 300, height := 200 } (-30) = 1 ∧
    probeDragPosition apicalProbe neuron1 { width := 300, height := 200 } 95 = 0 := by
  have h1 := (probe_drag_position_clamped apicalProbe neuron1 { width := 300, height := 200 }
    (-30)).2.1 rfl (by norm_num [neuron1, defaultMorphology])
  have h2 := (probe_drag_position_clamped apicalProbe neuron1 { width := 300, height := 200 }
    95).2.1 rfl (by norm_num [neuron1, defaultMorphology])
  exact ⟨h1.1 (by norm_num [neuron1, defaultMorphology]),
    h2.2 (by norm_num [neuron1, defaultMorphology])⟩

/-! ### C4: press priority -/

/-- A connection hit implies that the canvas is mounted. -/
theorem getHitConnection_some_mode (s : State) (x y : ℚ) (c : Connection)
    (h : getHitConnection s x y = some c) : circuitSchematicRef s = some s.canvas := by
  unfold getHitConnection at h
  unfold circuitSchematicRef at h ⊢
  by_cases hm : s.mode = Mode.individual
  · simp [hm]
  · simp [hm] at h

/-- C4. Hit-test priority on press.  For every state outside drawing mode and every press
location at which `getHitConnection` finds a connection and `getHitProbe` finds a probe,
`handleMouseDown` sets `draggedConnectionId` to the id of the connection hit and leaves
`draggedProbeId` as it was: the state after the press is the state before with
`wasDragged` reset and `draggedConnectionId` set. -/
theorem mouse_down_prefers_connection (s : State) (x y : ℚ) (c : Connection) (p : Probe)
    (hdraw : s.connectionDrawMode = none)
    (hc : getHitConnection s x y = some c) (_hp : getHitProbe s x y = some p) :
    (handleMouseDown s x y).draggedConnectionId = some c.id ∧
    (handleMouseDown s x y).draggedProbeId = s.draggedProbeId ∧
    handleMouseDown s x y = { s with wasDragged := false, draggedConnectionId := some c.id } := by
  have hcanvas := getHitConnection_some_mode s x y c hc
  have h : handleMouseDown s x y
      = { s with wasDragged := false, draggedConnectionId := some c.id } := by
    unfold handleMouseDown
    simp [hdraw, hcanvas, hc]
  rw [h]
  exact ⟨rfl, rfl, rfl⟩

/-- C4 at `overlapState`: the connection endpoint and the probe marker coincide at
`(200, 100)`; both hit tests succeed there and the press starts the drag of the
connection `c1`, not of the probe. -/
theorem mouse_down_prefers_connection_witness :
    (getHitConnection overlapState 200 100).map Connection.id = some "c1" ∧
    (getHitProbe overlapState 200 100).map Probe.id = some "p1" ∧
    (handleMouseDown overlapState 200 100).draggedConnectionId = some "c1" ∧
    (handleMouseDown overlapState 200 100).draggedProbeId = none := by
  have hc : getHitConnection overlapState 200 100
      = some { id := "c1", sourceId := some "n1", targetId := some "n2",
               synapseType := SynapseType.AMPA, targetSection := SectionName.Soma,
               position := 1 / 2, weight := 4 / 100, delay := 1 } := by decide!
  have hp : getHitProbe overlapState 200 100
      = some { id := "p1", targetId := "n2", section_ := SectionName.Soma,
               position := 1 / 2, color := "#e6194b" } := by decide!
  have h := mouse_down_prefers_connection overlapState 200 100 _ _ rfl hc hp
  refine ⟨?_, ?_, h.1, h.2.1⟩
  · rw [hc]; rfl
  · rw [hp]; rfl

/-! ### C5: removing a neuron -/

/-- C5. Neuron-removal cascade.  For every state and every neuron id, after
`removeNeuron(id)` no neuron has that id, no connection has `sourceId` or `targetId`
equal to it, and no stimulator and no probe has `targetId` equal to it. -/
theorem removeNeuron_cascade (s : State) (idToRemove : Id) :
    (∀ n ∈ (removeNeuron s idToRemove).neurons, n.id ≠ idToRemove) ∧
    (∀ c ∈ (removeNeuron s idToRemove).connections,
        c.sourceId ≠ some idToRemove ∧ c.targetId ≠ some idToRemove) ∧
    (∀ st ∈ (removeNeuron s idToRemove).stimulators, st.targetId ≠ some idToRemove) ∧
    (∀ p ∈ (removeNeuron s idToRemove).probes, p.targetId ≠ idToRemove) := by
  refine ⟨?_, ?_, ?_, ?_⟩
  · intro n hn
    simp only [removeNeuron, List.mem_filter, decide_eq_true_eq] at hn
    exact hn.2
  · intro c hc
    simp only [removeNeuron, List.mem_filter, decide_eq_true_eq] at hc
    exact hc.2
  · intro st hst
    simp only [removeNeuron, List.mem_filter, decide_eq_true_eq] at hst
    exact hst.2
  · intro p hp
    simp only [removeNeuron, List.mem_filter, decide_eq_true_eq] at hp
    exact hp.2

/-! ### C8: Escape -/

/-- C8. Escape cancels drawing.  From every state (in particular every state in drawing
mode with a captured start point) the Escape key handler sets `connectionDrawMode` and
`connectionStartPoint` to `null` and changes nothing else: neurons, connections,
stimulators and probes are unchanged, so no connection is created. -/
theorem escape_cancels_drawing (s : State) :
    (handleKeyDown s "Escape").connectionDrawMode = none ∧
    (handleKeyDown s "Escape").connectionStartPoint = none ∧
    (handleKeyDown s "Escape").neurons = s.neurons ∧
    (handleKeyDown s "Escape").connections = s.connections ∧
    (handleKeyDown s "Escape").stimulators = s.stimulators ∧
    (handleKeyDown s "Escape").probes = s.probes ∧
    handleKeyDown s "Escape" = { s with connectionDrawMode := none, connectionStartPoint := none } := by
  have h : handleKeyDown s "Escape"
      = { s with connectionDrawMode := none, connectionStartPoint := none } := by
    simp [handleKeyDown, cancelDrawing]
  rw [h]
  exact ⟨rfl, rfl, rfl, rfl, rfl, rfl, rfl⟩

/-! ### C9: a click on a probe removes it -/

/-- A probe returned by the loop of `getHitProbe` is one of the probes scanned. -/
theorem getHitProbeLoop_mem (neurons : List Neuron) (width height x y : ℚ) (p : Probe) :
    ∀ l : List Probe, getHitProbeLoop neurons width height x y l = some p → p ∈ l := by
  intro l
  induction l with
  | nil => intro h; simp [getHitProbeLoop] at h
  | cons a rest ih =>
    intro h
    unfold getHitProbeLoop at h
    split at h
    · exact List.mem_cons_of_mem _ (ih h)
    · split_ifs at h
      · injection h with h
        rw [h]; exact List.mem_cons_self _ _
      · exact List.mem_cons_of_mem _ (ih h)

/-- A probe hit is a probe of the state, and the canvas is mounted. -/
theorem getHitProbe_some (s : State) (x y : ℚ) (p : Probe)
    (h : getHitProbe s x y = some p) : s.mode = Mode.individual ∧ p ∈ s.probes := by
  unfold getHitProbe circuitSchematicRef at h
  by_cases hm : s.mode = Mode.individual
  · simp only [hm, if_true] at h
    exact ⟨hm, List.mem_reverse.mp (getHitProbeLoop_mem _ _ _ _ _ _ _ h)⟩
  · simp [hm] at h

/-- Filtering out the id of `p` from a list of probes with pairwise distinct ids removes
`p` and nothing else. -/
theorem filter_ne_id_of_nodup (before after : List Probe) (p : Probe)
    (hnd : ((before ++ p :: after).map Probe.id).Nodup) :
    (before ++ p :: after).filter (fun q => decide (q.id ≠ p.id)) = before ++ after := by
  rw [List.map_append, List.map_cons] at hnd
  have hb : ∀ q ∈ before, q.id ≠ p.id := by
    intro q hq heq
    have h1 := (List.nodup_append.mp hnd).2.2
    exact h1 (List.mem_map_of_mem Probe.id hq) (by rw [heq]; exact List.mem_cons_self _ _)
  have ha : ∀ q ∈ after, q.id ≠ p.id := by
    intro q hq heq
    have h1 := (List.nodup_cons.mp (List.nodup_append.mp hnd).2.1).1
    exact h1 (by rw [← heq]; exact List.mem_map_of_mem Probe.id hq)
  have e1 : before.filter (fun q => decide (q.id ≠ p.id)) = before :=
    List.filter_eq_self.mpr (fun q hq => by simpa using hb q hq)
  have e2 : after.filter (fun q => decide (q.id ≠ p.id)) = after :=
    List.filter_eq_self.mpr (fun q hq => by simpa using ha q hq)
  have e3 : decide (p.id ≠ p.id) = false := by simp
  rw [List.filter_append, List.filter_cons, e1, e2, e3]
  rfl

/-- C9. Click removes a probe.  Outside drawing mode and with no preceding drag, for every
click location at which `getHitProbe` returns probe `p` (probe ids pairwise distinct),
`handleCanvasClick` completes without error, removes exactly `p` from the probe list
(the list `before ++ p :: after` becomes `before ++ after`: every other probe is kept,
unchanged and in order, and none is added) and leaves neurons, connections and
stimulators unchanged. -/
theorem click_removes_probe (s : State) (newId : Id) (x y : ℚ) (p : Probe)
    (hdraw : s.connectionDrawMode = none) (hdrag : s.wasDragged = false)
    (hhit : getHitProbe s x y = some p) (hnd : (s.probes.map Probe.id).Nodup) :
    (handleCanvasClick s newId x y).error = none ∧
    (∃ before after : List Probe, s.probes = before ++ p :: after ∧
        (handleCanvasClick s newId x y).state.probes = before ++ after) ∧
    (handleCanvasClick s newId x y).state.neurons = s.neurons ∧
    (handleCanvasClick s newId x y).state.connections = s.connections ∧
    (handleCanvasClick s newId x y).state.stimulators = s.stimulators := by
  obtain ⟨hm, hmem⟩ := getHitProbe_some s x y p hhit
  have h : handleCanvasClick s newId x y = { state := removeProbe s p.id, error := none } := by
    unfold handleCanvasClick
    simp [hdrag, hm, circuitSchematicRef, hdraw, hhit]
  rw [h]
  refine ⟨rfl, ?_, rfl, rfl, rfl⟩
  obtain ⟨before, after, hsplit⟩ := List.append_of_mem hmem
  refine ⟨before, after, hsplit, ?_⟩
  simp only [removeProbe]
  rw [hsplit] at hnd ⊢
  exact filter_ne_id_of_nodup before after p hnd

/-- C9 at `overlapState`: a click at `(200, 100)`, where the probe `p1` is drawn, leaves
no probe and keeps the connection `c1`. -/
theorem click_removes_probe_witness :
    (handleCanvasClick overlapState "new" 200 100).state.probes = [] ∧
    (handleCanvasClick overlapState "new" 200 100).state.connections
      = overlapState.connections := by
  have hp : getHitProbe overlapState 200 100
      = some { id := "p1", targetId := "n2", section_ := SectionName.Soma,
               position := 1 / 2, color := "#e6194b" } := by decide!
  have h := click_removes_probe overlapState "new" 200 100 _ rfl rfl hp (by decide)
  obtain ⟨_, ⟨before, after, hsplit, hres⟩, _, hconn, _⟩ := h
  refine ⟨?_, hconn⟩
  rw [hres]
  have hlen := congrArg List.length hsplit
  simp [overlapState] at hlen
  have hb : before = [] := List.length_eq_zero.mp (by omega)
  have ha : after = [] := List.length_eq_zero.mp (by omega)
  rw [hb, ha]; rfl

/-! ### C10: the connection hit test -/

/-- The loop of `getHitConnection` returns the first connection of the scanned list that
passes the test of its body. -/
theorem getHitConnectionLoop_eq_find (neurons : List Neuron) (width height x y : ℚ) :
    ∀ l : List Connection,
      getHitConnectionLoop neurons width height x y l
        = l.find? (fun c => (connectionTarget neurons width height c).any
            (fun t => withinDistance (x - t.x) (y - t.y) 10)) := by
  intro l
  induction l with
  | nil => rfl
  | cons a rest ih =>
    unfold getHitConnectionLoop
    rw [List.find?_cons]
    cases hta : connectionTarget neurons width height a with
    | none => simpa using ih
    | some t =>
      by_cases hw : withinDistance (x - t.x) (y - t.y) 10 = true
      · simp [hw]
      · simp [hw, ih]

/-- An endpoint exists only for a connection whose target neuron exists. -/
theorem connectionTarget_some_exists (neurons : List Neuron) (width height : ℚ)
    (conn : Connection) (t : Point)
    (h : connectionTarget neurons width height conn = some t) :
    ∃ n ∈ neurons, some n.id = conn.targetId := by
  unfold connectionTarget at h
  split at h
  · next i n pos hf hl =>
    unfold findNeuron at hf
    have hmem := List.mem_of_find?_eq_some hf
    have hp := List.find?_some hf
    exact ⟨n, List.snd_mem_of_mem_enum hmem, by simpa using hp⟩
  · cases h

/-- With pairwise distinct ids, the point `getHitConnection` measures to for a connection
onto neuron `i` is the `sectionEndpoint` of the specification at the layout position of
neuron `i`, on the target section if the neuron includes it and on the soma otherwise. -/
theorem connectionTarget_eq_spec (neurons : List Neuron) (W H : ℚ)
    (hnd : (neurons.map Neuron.id).Nodup) (conn : Connection) (i : Nat) (n : Neuron)
    (hn : neurons[i]? = some n) (hid : some n.id = conn.targetId) :
    connectionTarget neurons W H conn
      = some (specSectionEndpoint n (drawnSection n.morphology conn.targetSection)
          conn.position (specLayoutPosition W H neurons.length i)) := by
  obtain ⟨hi, hget⟩ := List.getElem?_eq_some.mp hn
  have hget2 : neurons.get ⟨i, hi⟩ = n := hget
  have hf := findNeuron_get neurons hnd i hi
  have hp := neuronPositions_get neurons W H hnd i hi
  rw [hget2] at hf hp
  unfold connectionTarget
  rw [← hid, hf]
  simp only [lookupPosition, hp]
  cases hs : conn.targetSection <;> cases ha : n.morphology.includeApical <;>
    cases hb : n.morphology.includeBasal <;>
    simp [drawnSection, specSectionEndpoint, specLayoutPosition, neuronPos, mul_div_assoc,
      hs, ha, hb]

/-- With pairwise distinct ids, the test of the loop body of `getHitConnection` is the
condition `DrawnEndpointWithinReach`. -/
theorem connection_test_iff (neurons : List Neuron) (W H x y : ℚ)
    (hnd : (neurons.map Neuron.id).Nodup) (conn : Connection) :
    (connectionTarget neurons W H conn).any
        (fun t => withinDistance (x - t.x) (y - t.y) 10) = true
      ↔ DrawnEndpointWithinReach neurons W H x y conn := by
  unfold DrawnEndpointWithinReach
  constructor
  · intro h
    cases hta : connectionTarget neurons W H conn with
    | none => rw [hta] at h; cases h
    | some t =>
      obtain ⟨n, hn, hid⟩ := connectionTarget_some_exists neurons W H conn t hta
      obtain ⟨i, hi⟩ := List.mem_iff_getElem?.mp hn
      have hspec := connectionTarget_eq_spec neurons W H hnd conn i n hi hid
      rw [hspec] at h
      simp only [Option.any_some] at h
      exact ⟨i, n, hi, hid, (withinDistance_iff_sqrt _ _ _).mp h⟩
  · rintro ⟨i, n, hi, hid, hdist⟩
    rw [connectionTarget_eq_spec neurons W H hnd conn i n hi hid]
    simp only [Option.any_some]
    exact (withinDistance_iff_sqrt _ _ _).mpr hdist

/-- With the canvas mounted, `getHitConnection` returns the last connection of the list
that passes the test of its loop body, whatever condition `P` that test amounts to. -/
theorem getHitConnection_last_passing (s : State) (x y : ℚ) (hm : s.mode = Mode.individual)
    (P : Connection → Prop)
    (hP : ∀ c : Connection,
      (connectionTarget s.neurons s.canvas.width s.canvas.height c).any
          (fun t => withinDistance (x - t.x) (y - t.y) 10) = true ↔ P c) :
    (∀ c : Connection, getHitConnection s x y = some c ↔
      ∃ before after : List Connection, s.connections = before ++ c :: after ∧
        P c ∧ ∀ d ∈ after, ¬ P d) ∧
    (getHitConnection s x y = none ↔ ∀ c ∈ s.connections, ¬ P c) := by
  have hdef : getHitConnection s x y
      = s.connections.reverse.find? (fun c =>
          (connectionTarget s.neurons s.canvas.width s.canvas.height c).any
            (fun t => withinDistance (x - t.x) (y - t.y) 10)) := by
    unfold getHitConnection circuitSchematicRef
    simp only [hm, if_true]
    exact getHitConnectionLoop_eq_find _ _ _ _ _ _
  constructor
  · intro c
    rw [hdef, List.find?_eq_some]
    constructor
    · rintro ⟨hc, as, bs, hsplit, has⟩
      refine ⟨bs.reverse, as.reverse, ?_, (hP c).mp hc, ?_⟩
      · have := congrArg List.reverse hsplit
        simpa using this
      · intro d hd hreach
        have h1 := has d (List.mem_reverse.mp hd)
        rw [(hP d).mpr hreach] at h1
        cases h1
    · rintro ⟨before, after, hsplit, hc, hafter⟩
      refine ⟨(hP c).mpr hc, after.reverse, before.reverse, ?_, ?_⟩
      · rw [hsplit]; simp
      · intro d hd
        have h1 := hafter d (List.mem_reverse.mp hd)
        rw [← hP d] at h1
        simpa using h1
  · rw [hdef, List.find?_eq_none]
    constructor
    · intro h c hc hreach
      exact h c (List.mem_reverse.mpr hc) ((hP c).mpr hreach)
    · intro h c hc htest
      exact h c (List.mem_reverse.mp hc) ((hP c).mp htest)

/-- C10, counterexample.  In `disabledApicalState` the connection `c1` ends on the apical
dendrite of `n1` at position 0.7, whose `sectionEndpoint` is `(100, 20)`, and `n1` exists;
the apical dendrite of `n1` is not included.  At `(100, 20)` the condition of the
contract holds for `c1` (distance 0), yet `getHitConnection` returns `null`: it measures
to the soma centre `(100, 100)` of `n1`, where it does return `c1`. -/
theorem disabled_section_endpoint_not_hit :
    EndpointWithinReach disabledApicalState.neurons 300 200 100 20 apicalConnection ∧
    getHitConnection disabledApicalState 100 20 = none ∧
    getHitConnection disabledApicalState 100 100 = some apicalConnection := by
  refine ⟨?_, ?_, ?_⟩
  · refine ⟨0, noApicalNeuron1, rfl, rfl, ?_⟩
    rw [← withinDistance_iff_sqrt]
    decide!
  · decide!
  · decide!

/-- C10, amended.  The connection hit test.  With the canvas mounted and neuron ids
pairwise distinct, `getHitConnection(x, y)` returns `c` exactly when `c` is the last
connection of the list (the most recently created) whose target neuron exists and whose
endpoint is at Euclidean distance at most 10 from `(x, y)`, and returns `null` exactly when
no connection satisfies this; the endpoint is the `sectionEndpoint` of the specification
at the layout position of the target neuron, on the target section when the neuron
includes it and on the soma otherwise.  For a connection whose target section is included
in its target neuron this is the target-section endpoint. -/
theorem getHitConnection_most_recent (s : State) (x y : ℚ)
    (hm : s.mode = Mode.individual) (hnd : (s.neurons.map Neuron.id).Nodup) :
    (∀ c : Connection, getHitConnection s x y = some c ↔
      ∃ before after : List Connection, s.connections = before ++ c :: after ∧
        DrawnEndpointWithinReach s.neurons s.canvas.width s.canvas.height x y c ∧
        ∀ d ∈ after,
          ¬ DrawnEndpointWithinReach s.neurons s.canvas.width s.canvas.height x y d) ∧
    (getHitConnection s x y = none ↔
      ∀ c ∈ s.connections,
        ¬ DrawnEndpointWithinReach s.neurons s.canvas.width s.canvas.height x y c) ∧
    (∀ c : Connection,
      (∀ n ∈ s.neurons, some n.id = c.targetId →
        drawnSection n.morphology c.targetSection = c.targetSection) →
      (DrawnEndpointWithinReach s.neurons s.canvas.width s.canvas.height x y c ↔
        EndpointWithinReach s.neurons s.canvas.width s.canvas.height x y c)) := by
  have h := getHitConnection_last_passing s x y hm
    (DrawnEndpointWithinReach s.neurons s.canvas.width s.canvas.height x y)
    (fun c => connection_test_iff s.neurons s.canvas.width s.canvas.height x y hnd c)
  refine ⟨h.1, h.2, ?_⟩
  intro c hinc
  unfold DrawnEndpointWithinReach EndpointWithinReach
  constructor
  · rintro ⟨i, n, hi, hid, hdist⟩
    have hmem : n ∈ s.neurons := List.mem_iff_getElem?.mpr ⟨i, hi⟩
    rw [hinc n hmem hid] at hdist
    exact ⟨i, n, hi, hid, hdist⟩
  · rintro ⟨i, n, hi, hid, hdist⟩
    have hmem : n ∈ s.neurons := List.mem_iff_getElem?.mpr ⟨i, hi⟩
    refine ⟨i, n, hi, hid, ?_⟩
    rw [hinc n hmem hid]
    exact hdist

/-- C10, amended, at `twoApicalConnectionState`: both connections end on the apical
dendrite of `n1` at position 0.7, at `(100, 20)`; the point `(103, 24)` is at distance 5
from it, and the hit test returns the later one, `c2`. -/
theorem getHitConnection_most_recent_witness :
    getHitConnection twoApicalConnectionState 103 24 = some apicalConnection2 := by
  apply ((getHitConnection_most_recent twoApicalConnectionState 103 24 rfl
    (by decide)).1 _).mpr
  refine ⟨[apicalConnection], [], rfl, ?_, ?_⟩
  · refine ⟨0, neuron1, rfl, rfl, ?_⟩
    rw [← withinDistance_iff_sqrt]
    decide!
  · intro d hd
    cases hd

/-! ### C6: disabling a section -/

/-- C6, the code in `apicalState`.  A probe and a connection endpoint sit on the apical
dendrite of the selected neuron `n1` at position 0.7.  After
`updateMorphology('includeApical', false)` the flag of `n1` is off, yet the probe is
still on the apical dendrite at 0.7 and the connection still targets the apical dendrite
at 0.7: neither was changed to the soma with position 0.5.  The target selector of the
probe, run on the same probe and neuron, does move the probe to the soma with position
0.5. -/
theorem updateMorphology_no_cascade :
    (updateMorphology apicalState (MorphologyField.includeApical false)).selectedNeuronId
      = some "n1" ∧
    ((updateMorphology apicalState (MorphologyField.includeApical false)).neurons.map
      (fun n => (n.id, n.morphology.includeApical))) = [("n1", false), ("n2", true)] ∧
    ((updateMorphology apicalState (MorphologyField.includeApical false)).probes.map
      (fun p => (p.targetId, p.section_, p.position)))
      = [("n1", SectionName.ApicalDendrite, 7 / 10)] ∧
    ((updateMorphology apicalState (MorphologyField.includeApical false)).connections.map
      (fun c => (c.targetId, c.targetSection, c.position)))
      = [(some "n1", SectionName.ApicalDendrite, 7 / 10)] ∧
    ((probeTargetChange (updateMorphology apicalState (MorphologyField.includeApical false))
        apicalProbe "n1").probes.map (fun p => (p.targetId, p.section_, p.position)))
      = [("n1", SectionName.Soma, 1 / 2)] := by
  refine ⟨rfl, ?_, rfl, rfl, ?_⟩
  · decide
  · decide!

/-- The update of a morphology field keeps every neuron id, in order. -/
theorem updateMorphology_ids (s : State) (field : MorphologyField) :
    (updateMorphology s field).neurons.map Neuron.id = s.neurons.map Neuron.id := by
  unfold updateMorphology
  simp only [List.map_map]
  apply List.map_congr_left
  intro n _
  simp only [Function.comp]
  split_ifs <;> rfl

/-- The endpoint of a connection whose target section is not included in its target
neuron is the centre of that neuron. -/
theorem connectionTarget_not_included (neurons : List Neuron) (W H : ℚ)
    (hnd : (neurons.map Neuron.id).Nodup) (i : Nat) (hi : i < neurons.length)
    (conn : Connection) (ht : conn.targetId = some (neurons.get ⟨i, hi⟩).id)
    (ha : conn.targetSection = SectionName.ApicalDendrite →
      (neurons.get ⟨i, hi⟩).morphology.includeApical = false)
    (hb : conn.targetSection = SectionName.BasalDendrite →
      (neurons.get ⟨i, hi⟩).morphology.includeBasal = false) :
    connectionTarget neurons W H conn = some (neuronPos W H neurons.length i) := by
  have hf := findNeuron_get neurons hnd i hi
  have hp := neuronPositions_get neurons W H hnd i hi
  unfold connectionTarget
  rw [ht, hf]
  simp only [lookupPosition, hp]
  have h1 : ¬ (conn.targetSection = SectionName.ApicalDendrite ∧
      (neurons.get ⟨i, hi⟩).morphology.includeApical = true) := by
    rintro ⟨h, h2⟩
    rw [ha h] at h2
    cases h2
  have h2 : ¬ (conn.targetSection = SectionName.BasalDendrite ∧
      (neurons.get ⟨i, hi⟩).morphology.includeBasal = true) := by
    rintro ⟨h, h2⟩
    rw [hb h] at h2
    cases h2
  simp only [h1, h2, if_false]

/-- The neuron at the index of the selected neuron after `updateMorphology`. -/
theorem updateMorphology_getElem? (s : State) (field : MorphologyField) (i : Nat)
    (n : Neuron) (hn : s.neurons[i]? = some n) (hsel : s.selectedNeuronId = some n.id) :
    (updateMorphology s field).neurons[i]?
      = some { n with morphology := n.morphology.set field } := by
  unfold updateMorphology
  simp [List.getElem?_map, hn, hsel]

/-- What `updateMorphology` does when a section is disabled.  Let the selected neuron be
neuron `i` of a list with pairwise distinct ids.  Setting `includeApical` (resp.
`includeBasal`) to `false` turns that flag of the selected neuron off and leaves the stored
connections as they are; the point to which `getHitConnection` measures for a connection
that targets the disabled section of that neuron is then the neuron's soma centre
`(W/(N+1)*(i+1), H/2)`. -/
theorem updateMorphology_disable_section (s : State) (W H : ℚ) (i : Nat) (n : Neuron)
    (hn : s.neurons[i]? = some n) (hsel : s.selectedNeuronId = some n.id)
    (hnd : (s.neurons.map Neuron.id).Nodup) :
    ((updateMorphology s (MorphologyField.includeApical false)).connections = s.connections ∧
      (∀ m ∈ (updateMorphology s (MorphologyField.includeApical false)).neurons,
        m.id = n.id → m.morphology.includeApical = false) ∧
      (∀ c ∈ s.connections, c.targetId = some n.id →
        c.targetSection = SectionName.ApicalDendrite →
        connectionTarget (updateMorphology s (MorphologyField.includeApical false)).neurons
            W H c
          = some { x := W / ((s.neurons.length : ℚ) + 1) * ((i : ℚ) + 1), y := H / 2 })) ∧
    ((updateMorphology s (MorphologyField.includeBasal false)).connections = s.connections ∧
      (∀ m ∈ (updateMorphology s (MorphologyField.includeBasal false)).neurons,
        m.id = n.id → m.morphology.includeBasal = false) ∧
      (∀ c ∈ s.connections, c.targetId = some n.id →
        c.targetSection = SectionName.BasalDendrite →
        connectionTarget (updateMorphology s (MorphologyField.includeBasal false)).neurons
            W H c
          = some { x := W / ((s.neurons.length : ℚ) + 1) * ((i : ℚ) + 1), y := H / 2 })) := by
  have hflag : ∀ (field : MorphologyField) (P : Morphology → Prop),
      (∀ m : Morphology, P (m.set field)) →
      ∀ m ∈ (updateMorphology s field).neurons, m.id = n.id → P m.morphology := by
    intro field P hP m hm hid
    unfold updateMorphology at hm
    simp only [List.mem_map] at hm
    obtain ⟨m0, _, rfl⟩ := hm
    by_cases hc : some m0.id = s.selectedNeuronId
    · simp only [hc, if_true]
      exact hP _
    · exfalso
      simp only [hc, if_false] at hid
      exact hc (by rw [hid, hsel])
  have htarget : ∀ (field : MorphologyField) (c : Connection),
      c.targetId = some n.id →
      (c.targetSection = SectionName.ApicalDendrite →
        (n.morphology.set field).includeApical = false) →
      (c.targetSection = SectionName.BasalDendrite →
        (n.morphology.set field).includeBasal = false) →
      connectionTarget (updateMorphology s field).neurons W H c
        = some { x := W / ((s.neurons.length : ℚ) + 1) * ((i : ℚ) + 1), y := H / 2 } := by
    intro field c ht ha hb
    have hn2 := updateMorphology_getElem? s field i n hn hsel
    obtain ⟨hi2, hget⟩ := List.getElem?_eq_some.mp hn2
    have hnd2 : ((updateMorphology s field).neurons.map Neuron.id).Nodup := by
      rw [updateMorphology_ids]; exact hnd
    have hlen : (updateMorphology s field).neurons.length = s.neurons.length := by
      have := congrArg List.length (updateMorphology_ids s field)
      simpa using this
    have hget2 : (updateMorphology s field).neurons.get ⟨i, hi2⟩
        = { n with morphology := n.morphology.set field } := hget
    have := connectionTarget_not_included (updateMorphology s field).neurons W H hnd2 i hi2 c
      (by rw [hget2]; exact ht) (by rw [hget2]; exact ha) (by rw [hget2]; exact hb)
    rw [this, hlen]
    rfl
  refine ⟨⟨rfl, ?_, ?_⟩, ⟨rfl, ?_, ?_⟩⟩
  · exact hflag _ (fun m => m.includeApical = false) (fun m => rfl)
  · intro c _ ht hs
    exact htarget _ c ht (fun _ => rfl) (fun h => by rw [hs] at h; cases h)
  · exact hflag _ (fun m => m.includeBasal = false) (fun m => rfl)
  · intro c _ ht hs
    exact htarget _ c ht (fun h => by rw [hs] at h; cases h) (fun _ => rfl)

/-- Example at `apicalState`: after the apical dendrite of `n1` is disabled, the
connection onto it is still stored with section `Apical Dendrite`, and `getHitConnection`
measures to the soma centre `(100, 100)` of `n1` for it. -/
theorem updateMorphology_disable_section_witness :
    (updateMorphology apicalState (MorphologyField.includeApical false)).connections
      = [apicalConnection] ∧
    connectionTarget (updateMorphology apicalState (MorphologyField.includeApical false)).neurons
        300 200 apicalConnection
      = some { x := 100, y := 100 } := by
  have h := (updateMorphology_disable_section apicalState 300 200 0 neuron1 rfl rfl
    (by decide)).1
  refine ⟨h.1, ?_⟩
  refine (h.2.2 apicalConnection (List.mem_cons_self _ _) rfl rfl).trans ?_
  simp [apicalState, twoNeuronState, twoNeurons]
  norm_num

/-! ### C7: the two-click draw scenario -/

/-- C7, the code at two default neurons.  On a 300 x 200 canvas the somas of `n1` and `n2`
are centred at `(100, 100)` and `(200, 100)` with radius 10.  After the AMPA toggle, the
click on the soma centre of `n1` makes `getHitNeuron` scan `n2` first, miss its soma and
apical shaft and reach the basal branch, whose `basalBottom` initialiser raises a
`ReferenceError`: the click handler aborts and the state is unchanged.  The click on the
soma centre of `n2` then only captures `n2` as the start point: no connection is created
and drawing mode stays armed. -/
theorem two_click_draw_aborts :
    getHitNeuron (toggleDrawMode twoNeuronState SynapseType.AMPA) 100 100
      = Except.error JsError.referenceError ∧
    handleCanvasClick (toggleDrawMode twoNeuronState SynapseType.AMPA) "c1" 100 100
      = { state := toggleDrawMode twoNeuronState SynapseType.AMPA,
          error := some JsError.referenceError } ∧
    (handleCanvasClick (toggleDrawMode twoNeuronState SynapseType.AMPA) "c1" 200 100).state
      = { toggleDrawMode twoNeuronState SynapseType.AMPA with
          connectionStartPoint := some { neuronId := "n2", x := 200, y := 100 } } ∧
    (handleCanvasClick (toggleDrawMode twoNeuronState SynapseType.AMPA)
      "c1" 200 100).state.connections = [] ∧
    (handleCanvasClick (toggleDrawMode twoNeuronState SynapseType.AMPA)
      "c1" 200 100).state.connectionDrawMode = some SynapseType.AMPA := by
  refine ⟨?_, ?_, ?_, ?_, ?_⟩ <;> decide!

/-! ### C11: the probe hit test -/

/-- The loop of `getHitProbe` returns the first probe of the scanned list that passes the
test of its body. -/
theorem getHitProbeLoop_eq_find (neurons : List Neuron) (width height x y : ℚ) :
    ∀ l : List Probe,
      getHitProbeLoop neurons width height x y l
        = l.find? (fun p => (probeTarget neurons width height p).any
            (fun t => withinDistance (x - t.x) (y - t.y) 7)) := by
  intro l
  induction l with
  | nil => rfl
  | cons a rest ih =>
    unfold getHitProbeLoop
    rw [List.find?_cons]
    cases hta : probeTarget neurons width height a with
    | none => simpa using ih
    | some t =>
      by_cases hw : withinDistance (x - t.x) (y - t.y) 7 = true
      · simp [hw]
      · simp [hw, ih]

/-- A probe has a drawn position only if its target neuron exists. -/
theorem probeTarget_some_exists (neurons : List Neuron) (width height : ℚ)
    (probe : Probe) (t : Point) (h : probeTarget neurons width height probe = some t) :
    ∃ n ∈ neurons, n.id = probe.targetId := by
  unfold probeTarget at h
  split at h
  · cases h
  · next i n hf =>
    unfold findNeuron at hf
    have hmem := List.mem_of_find?_eq_some hf
    have hp := List.find?_some hf
    exact ⟨n, List.snd_mem_of_mem_enum hmem, by simpa using hp⟩

/-- With pairwise distinct ids, the point `getHitProbe` measures to for a probe on neuron
`i` is the `sectionEndpoint` of the specification at the layout position of neuron `i`. -/
theorem probeTarget_eq_spec (neurons : List Neuron) (W H : ℚ)
    (hnd : (neurons.map Neuron.id).Nodup) (probe : Probe) (i : Nat) (n : Neuron)
    (hn : neurons[i]? = some n) (hid : n.id = probe.targetId) :
    probeTarget neurons W H probe
      = some (specSectionEndpoint n probe.section_ probe.position
          (specLayoutPosition W H neurons.length i)) := by
  obtain ⟨hi, hget⟩ := List.getElem?_eq_some.mp hn
  have hget2 : neurons.get ⟨i, hi⟩ = n := hget
  have hf := findNeuron_get neurons hnd i hi
  rw [hget2] at hf
  unfold probeTarget
  rw [← hid, hf]
  cases hs : probe.section_ <;>
    simp [sectionY, specSectionEndpoint, specLayoutPosition, mul_div_assoc]

/-- With pairwise distinct ids, the test of the loop body of `getHitProbe` is the
condition of the contract. -/
theorem probe_test_iff (neurons : List Neuron) (W H x y : ℚ)
    (hnd : (neurons.map Neuron.id).Nodup) (probe : Probe) :
    (probeTarget neurons W H probe).any
        (fun t => withinDistance (x - t.x) (y - t.y) 7) = true
      ↔ MarkerWithinReach neurons W H x y probe := by
  unfold MarkerWithinReach
  constructor
  · intro h
    cases hta : probeTarget neurons W H probe with
    | none => rw [hta] at h; cases h
    | some t =>
      obtain ⟨n, hn, hid⟩ := probeTarget_some_exists neurons W H probe t hta
      obtain ⟨i, hi⟩ := List.mem_iff_getElem?.mp hn
      have hspec := probeTarget_eq_spec neurons W H hnd probe i n hi hid
      rw [hspec] at h
      simp only [Option.any_some] at h
      exact ⟨i, n, hi, hid, (withinDistance_iff_sqrt _ _ _).mp h⟩
  · rintro ⟨i, n, hi, hid, hdist⟩
    rw [probeTarget_eq_spec neurons W H hnd probe i n hi hid]
    simp only [Option.any_some]
    exact (withinDistance_iff_sqrt _ _ _).mpr hdist

/-- C11. The probe hit test.  With the canvas mounted and neuron ids pairwise distinct,
`getHitProbe(x, y)` returns `p` exactly when `p` is the last probe of the list (the most
recently created) whose target neuron exists and whose drawn position (the
`sectionEndpoint` of the specification at the layout position of its target neuron) is at
Euclidean distance at most 7 from `(x, y)`, and returns `null` exactly when no probe
satisfies this. -/
theorem getHitProbe_most_recent (s : State) (x y : ℚ) (hm : s.mode = Mode.individual)
    (hnd : (s.neurons.map Neuron.id).Nodup) :
    (∀ p : Probe, getHitProbe s x y = some p ↔
      ∃ before after : List Probe, s.probes = before ++ p :: after ∧
        MarkerWithinReach s.neurons s.canvas.width s.canvas.height x y p ∧
        ∀ q ∈ after, ¬ MarkerWithinReach s.neurons s.canvas.width s.canvas.height x y q) ∧
    (getHitProbe s x y = none ↔
      ∀ p ∈ s.probes, ¬ MarkerWithinReach s.neurons s.canvas.width s.canvas.height x y p) := by
  have hdef : getHitProbe s x y
      = s.probes.reverse.find? (fun p =>
          (probeTarget s.neurons s.canvas.width s.canvas.height p).any
            (fun t => withinDistance (x - t.x) (y - t.y) 7)) := by
    unfold getHitProbe circuitSchematicRef
    simp only [hm, if_true]
    exact getHitProbeLoop_eq_find _ _ _ _ _ _
  constructor
  · intro p
    rw [hdef, List.find?_eq_some]
    constructor
    · rintro ⟨hp, as, bs, hsplit, has⟩
      refine ⟨bs.reverse, as.reverse, ?_, (probe_test_iff _ _ _ _ _ hnd _).mp hp, ?_⟩
      · have := congrArg List.reverse hsplit
        simpa using this
      · intro q hq hreach
        have h1 := has q (List.mem_reverse.mp hq)
        rw [(probe_test_iff _ _ _ _ _ hnd _).mpr hreach] at h1
        cases h1
    · rintro ⟨before, after, hsplit, hp, hafter⟩
      refine ⟨(probe_test_iff _ _ _ _ _ hnd _).mpr hp, after.reverse, before.reverse, ?_, ?_⟩
      · rw [hsplit]; simp
      · intro q hq
        have h1 := hafter q (List.mem_reverse.mp hq)
        rw [← probe_test_iff _ _ _ _ _ hnd] at h1
        simpa using h1
  · rw [hdef, List.find?_eq_none]
    constructor
    · intro h p hp hreach
      exact h p (List.mem_reverse.mpr hp) ((probe_test_iff _ _ _ _ _ hnd _).mpr hreach)
    · intro h p hp htest
      exact h p (List.mem_reverse.mp hp) ((probe_test_iff _ _ _ _ _ hnd _).mp htest)

/-- C11 at `twoApicalProbeState`: both probes are drawn on the apical dendrite of `n1` at
position 0.7, at `(100, 20)`; the point `(103, 24)` is at distance 5 from it, and the hit
test returns the later one, `p2`; at the soma centre `(100, 100)` of `n1` it returns
`null`. -/
theorem getHitProbe_most_recent_witness :
    getHitProbe twoApicalProbeState 103 24 = some apicalProbe2 ∧
    getHitProbe twoApicalProbeState 100 100 = none := by
  constructor
  · apply ((getHitProbe_most_recent twoApicalProbeState 103 24 rfl (by decide)).1 _).mpr
    refine ⟨[apicalProbe], [], rfl, ?_, ?_⟩
    · refine ⟨0, neuron1, rfl, rfl, ?_⟩
      rw [← withinDistance_iff_sqrt]
      decide!
    · intro q hq
      cases hq
  · decide!

/-! ### C12, C13, C14: hits behind the basal branch -/

/-- C12, the code at two default neurons.  On a 300 x 200 canvas `n1` is centred at
`(100, 100)` with soma radius 10 and an apical shaft from height 90 up to height -10; the
point `(100, 50)` is on that shaft, outside the soma of `n1` and on no part of `n2`
(centred at `(200, 100)`).  `getHitNeuron` scans the later-created `n2` first, reaches its
basal branch and raises a `ReferenceError`; it does not return the apical hit on `n1`
(position 0.4), which the loop body gives when it is run on `n1`. -/
theorem apical_hit_behind_later_neuron_aborts :
    getHitNeuron twoNeuronState 100 50 = Except.error JsError.referenceError ∧
    hitNeuronAt 300 200 2 100 50 0 neuron1
      = Except.ok (some { neuron := neuron1, neuronPos := { x := 100, y := 100 },
                          section_ := SectionName.ApicalDendrite, position := 2 / 5 }) := by
  constructor <;> decide!

/-- C13, the code at the default neuron.  On a 300 x 200 canvas the neuron is centred at
`(150, 100)` with soma radius 10 and a basal shaft drawn from height 110 down to height
160.  The point `(150, 130)` is on that shaft; `getHitNeuron` raises a `ReferenceError`
instead of returning the basal hit at position 0.4, and so does it at both ends of the
drawn span. -/
theorem basal_hit_aborts :
    getHitNeuron oneNeuronState 150 130 = Except.error JsError.referenceError ∧
    getHitNeuron oneNeuronState 150 111 = Except.error JsError.referenceError ∧
    getHitNeuron oneNeuronState 150 160 = Except.error JsError.referenceError := by
  refine ⟨?_, ?_, ?_⟩ <;> decide!

/-- The loop body of `getHitNeuron` raises a `ReferenceError` for every neuron that
includes a basal dendrite and is missed by the soma and apical tests. -/
theorem hitNeuronAt_basal_error (width height : ℚ) (length : Nat) (x y : ℚ) (index : Nat)
    (neuron : Neuron) (hb : neuron.morphology.includeBasal = true)
    (hsoma : withinDistance (x - (neuronPos width height length index).x)
      (y - (neuronPos width height length index).y) (neuron.morphology.somaDiam / 2) = false)
    (hapical : ¬ (neuron.morphology.includeApical = true
      ∧ x ≥ (neuronPos width height length index).x - 5
      ∧ x ≤ (neuronPos width height length index).x + 5
      ∧ y ≥ (neuronPos width height length index).y - neuron.morphology.somaDiam / 2
            - neuron.morphology.apicalL / 4
      ∧ y ≤ (neuronPos width height length index).y - neuron.morphology.somaDiam / 2)) :
    hitNeuronAt width height length x y index neuron = Except.error JsError.referenceError := by
  unfold hitNeuronAt
  simp only [hsoma, Bool.false_eq_true, if_false, hapical, hb, if_true, basalBottomInit]

/-- C14, the code at the default neuron.  At the point `(0, 0)`, which is on nothing,
`getHitProbe` and `getHitConnection` return `null`, but `getHitNeuron` raises a
`ReferenceError` instead of returning `null`. -/
theorem getHitNeuron_not_total :
    getHitNeuron oneNeuronState 0 0 = Except.error JsError.referenceError ∧
    getHitProbe oneNeuronState 0 0 = none ∧
    getHitConnection oneNeuronState 0 0 = none := by
  refine ⟨?_, ?_, ?_⟩ <;> decide!

/-! ### The scan of `getHitNeuron` -/

/-- The loop of `getHitNeuron` skips the entries whose body falls through. -/
theorem getHitNeuronLoop_append_of_miss (width height : ℚ) (length : Nat) (x y : ℚ) :
    ∀ l1 l2 : List (Nat × Neuron),
      (∀ e ∈ l1, hitNeuronAt width height length x y e.1 e.2 = Except.ok none) →
      getHitNeuronLoop width height length x y (l1 ++ l2)
        = getHitNeuronLoop width height length x y l2 := by
  intro l1
  induction l1 with
  | nil => intro l2 _; rfl
  | cons a rest ih =>
    intro l2 h
    have ha := h a (List.mem_cons_self _ _)
    rw [List.cons_append]
    conv_lhs => unfold getHitNeuronLoop
    simp only [ha]
    exact ih l2 (fun e he => h e (List.mem_cons_of_mem _ he))

/-- The loop of `getHitNeuron` returns the hit of the first entry whose body returns one. -/
theorem getHitNeuronLoop_cons_some (width height : ℚ) (length : Nat) (x y : ℚ)
    (e : Nat × Neuron) (rest : List (Nat × Neuron)) (hit : Hit)
    (h : hitNeuronAt width height length x y e.1 e.2 = Except.ok (some hit)) :
    getHitNeuronLoop width height length x y (e :: rest) = Except.ok (some hit) := by
  conv_lhs => unfold getHitNeuronLoop
  simp only [h]

/-- The entries of `l.enum` after position `i` carry an index greater than `i`. -/
theorem mem_drop_enum {α : Type} (l : List α) (i : Nat) (e : Nat × α)
    (he : e ∈ (l.enum).drop (i + 1)) : i < e.1 ∧ l[e.1]? = some e.2 := by
  obtain ⟨k, hk⟩ := List.mem_iff_getElem?.mp he
  rw [List.getElem?_drop, List.getElem?_enum] at hk
  cases hl : l[i + 1 + k]? with
  | none => rw [hl] at hk; cases hk
  | some a =>
    rw [hl] at hk
    simp only [Option.map_some', Option.some.injEq] at hk
    subst hk
    exact ⟨by simp only; omega, hl⟩

/-- If the body of the loop returns a hit for neuron `i` and falls through for every
later-created neuron, `getHitNeuron` returns that hit. -/
theorem getHitNeuron_scan (s : State) (x y : ℚ) (hm : s.mode = Mode.individual)
    (i : Nat) (n : Neuron) (hn : s.neurons[i]? = some n) (hit : Hit)
    (hlater : ∀ (j : Nat) (m : Neuron), s.neurons[j]? = some m → i < j →
      hitNeuronAt s.canvas.width s.canvas.height s.neurons.length x y j m = Except.ok none)
    (hhit : hitNeuronAt s.canvas.width s.canvas.height s.neurons.length x y i n
      = Except.ok (some hit)) :
    getHitNeuron s x y = Except.ok (some hit) := by
  obtain ⟨hi, hget⟩ := List.getElem?_eq_some.mp hn
  have hi2 : i < s.neurons.enum.length := by simpa using hi
  have hsplit : s.neurons.enum
      = (s.neurons.enum).take i ++ (i, n) :: (s.neurons.enum).drop (i + 1) := by
    have h1 := (List.take_append_drop i s.neurons.enum).symm
    rw [List.drop_eq_getElem_cons hi2, List.getElem_enum] at h1
    rw [← hget]
    exact h1
  unfold getHitNeuron circuitSchematicRef
  simp only [hm, if_true]
  rw [hsplit, List.reverse_append, List.reverse_cons, List.append_assoc]
  rw [getHitNeuronLoop_append_of_miss]
  · exact getHitNeuronLoop_cons_some _ _ _ _ _ _ _ _ hhit
  · intro e he
    obtain ⟨hlt, hm2⟩ := mem_drop_enum s.neurons i e (List.mem_reverse.mp he)
    exact hlater e.1 e.2 hm2 hlt

/-! ### C15: soma and shafts -/

/-- The body of the loop falls through exactly when the point is outside the soma disk,
not on the apical shaft of a neuron that includes one, and the neuron includes no basal
dendrite. -/
theorem hitNeuronAt_none_iff (width height : ℚ) (length : Nat) (x y : ℚ) (index : Nat)
    (neuron : Neuron) :
    hitNeuronAt width height length x y index neuron = Except.ok none ↔
      withinDistance (x - (neuronPos width height length index).x)
        (y - (neuronPos width height length index).y) (neuron.morphology.somaDiam / 2) = false ∧
      ¬ (neuron.morphology.includeApical = true
        ∧ x ≥ (neuronPos width height length index).x - 5
        ∧ x ≤ (neuronPos width height length index).x + 5
        ∧ y ≥ (neuronPos width height length index).y - neuron.morphology.somaDiam / 2
              - neuron.morphology.apicalL / 4
        ∧ y ≤ (neuronPos width height length index).y - neuron.morphology.somaDiam / 2) ∧
      neuron.morphology.includeBasal = false := by
  unfold hitNeuronAt
  simp only [basalBottomInit]
  split_ifs with h1 h2 h3
  · refine ⟨fun h => (by cases h), fun h => ?_⟩
    rw [h1] at h
    exact absurd h.1 (by simp)
  · exact ⟨fun h => (by cases h), fun h => absurd h2 h.2.1⟩
  · refine ⟨fun h => (by cases h), fun h => ?_⟩
    rw [h.2.2] at h3
    cases h3
  · exact ⟨fun _ => ⟨by simpa using h1, h2, by simpa using h3⟩, fun _ => rfl⟩

/-- C15, counterexample.  In `crowdedState` the point `(40, 90)` lies within the soma disk
of `n1` (centre `(20, 100)`, radius 25) and on the apical shaft of the later-created `n2`;
`getHitNeuron` returns the apical hit on `n2`, not a soma hit. -/
theorem later_shaft_beats_earlier_soma :
    withinDistance (40 - 20) (90 - 100) (50 / 2) = true ∧
    getHitNeuron crowdedState 40 90
      = Except.ok (some { neuron := narrowSomaNeuron, neuronPos := { x := 40, y := 100 },
                          section_ := SectionName.ApicalDendrite, position := 1 / 20 }) := by
  constructor <;> decide!

/-- C15, amended.  Soma beats the shafts of the same neuron.  Every hit that
`getHitNeuron` returns on a neuron whose soma disk contains `(x, y)` is a soma hit; and if
`(x, y)` lies within the soma disk of neuron `i` (distance to its centre at most
`somaDiam/2`) and the scan falls through every later-created neuron, `getHitNeuron`
returns the soma hit on neuron `i`, with position 0.5. -/
theorem soma_beats_own_shafts (s : State) (x y : ℚ) :
    (∀ hit : Hit, getHitNeuron s x y = Except.ok (some hit) →
      Real.sqrt (((x - hit.neuronPos.x : ℚ) : ℝ) ^ 2 + ((y - hit.neuronPos.y : ℚ) : ℝ) ^ 2)
        ≤ ((hit.neuron.morphology.somaDiam / 2 : ℚ) : ℝ) →
      hit.section_ = SectionName.Soma) ∧
    (s.mode = Mode.individual → ∀ (i : Nat) (n : Neuron), s.neurons[i]? = some n →
      Real.sqrt
          (((x - s.canvas.width / ((s.neurons.length : ℚ) + 1) * ((i : ℚ) + 1) : ℚ) : ℝ) ^ 2
            + ((y - s.canvas.height / 2 : ℚ) : ℝ) ^ 2)
        ≤ ((n.morphology.somaDiam / 2 : ℚ) : ℝ) →
      (∀ (j : Nat) (m : Neuron), s.neurons[j]? = some m → i < j →
        hitNeuronAt s.canvas.width s.canvas.height s.neurons.length x y j m
          = Except.ok none) →
      getHitNeuron s x y
        = Except.ok (some
            { neuron := n
              neuronPos :=
                { x := s.canvas.width / ((s.neurons.length : ℚ) + 1) * ((i : ℚ) + 1)
                  y := s.canvas.height / 2 }
              section_ := SectionName.Soma
              position := 1 / 2 })) := by
  constructor
  · intro hit h hsoma
    obtain ⟨_, i, hi, hn, hp, hh⟩ := getHitNeuron_some s x y hit h
    rw [← withinDistance_iff_sqrt] at hsoma
    rw [hn, hp] at hsoma
    unfold hitNeuronAt at hh
    simp only [hsoma, if_true] at hh
    injection hh with hh; injection hh with hh
    rw [← hh]
  · intro hm i n hn hsoma hlater
    rw [← withinDistance_iff_sqrt] at hsoma
    apply getHitNeuron_scan s x y hm i n hn _ hlater
    unfold hitNeuronAt
    have hsoma2 : withinDistance (x - (neuronPos s.canvas.width s.canvas.height
        s.neurons.length i).x) (y - (neuronPos s.canvas.width s.canvas.height
        s.neurons.length i).y) (n.morphology.somaDiam / 2) = true := hsoma
    simp only [hsoma2, if_true]
    rfl

/-- C15, amended, at `noBasalState`: the point `(103, 104)` is at distance 5 from the
centre `(100, 100)` of `n1`, inside its soma disk of radius 10; the scan falls through the
later-created `n2`, which has no basal dendrite, and `getHitNeuron` returns the soma hit
on `n1`. -/
theorem soma_beats_own_shafts_witness :
    getHitNeuron noBasalState 103 104
      = Except.ok (some { neuron := neuron1, neuronPos := { x := 100, y := 100 },
                          section_ := SectionName.Soma, position := 1 / 2 }) := by
  have h := (soma_beats_own_shafts noBasalState 103 104).2 rfl 0 neuron1 rfl
    (by rw [← withinDistance_iff_sqrt]; decide!)
    (by
      intro j m hj hlt
      match j, hj, hlt with
      | 1, hj, _ =>
        have hm : m = noBasalNeuron := by
          simp [noBasalState] at hj
          exact hj.symm
        rw [hm]
        decide!
      | (k + 2), hj, _ => simp [noBasalState] at hj)
  rw [h]
  decide!

/-! ### C16: the draw-mode toggle -/

/-- C16, the code in `drawingState` (AMPA drawing mode, start point captured on `n2`).
Pressing "+ AMPA" again clears `connectionDrawMode` but leaves `connectionStartPoint`
set, whereas Escape clears both.  The stale start point is then used: after drawing mode
is armed again, the first click on a soma already creates a connection from `n2`. -/
theorem toggle_keeps_start_point :
    (toggleDrawMode drawingState SynapseType.AMPA).connectionDrawMode = none ∧
    (toggleDrawMode drawingState SynapseType.AMPA).connectionStartPoint
      = some { neuronId := "n2", x := 200, y := 100 } ∧
    (handleKeyDown drawingState "Escape").connectionStartPoint = none ∧
    ((handleCanvasClick
        (toggleDrawMode (toggleDrawMode drawingState SynapseType.AMPA) SynapseType.GABA)
        "c1" 200 100).state.connections.map
      (fun c => (c.sourceId, c.targetId, c.synapseType)))
      = [(some "n2", some "n2", SynapseType.GABA)] := by
  refine ⟨?_, ?_, ?_, ?_⟩ <;> decide!

/-! ### C17: probe colours -/

/-- The palette has 21 colours. -/
theorem DISTINCT_COLORS_length : DISTINCT_COLORS.length = 21 := rfl

/-- The colour `getDistinctColor n` is the entry `n mod 21` of the palette. -/
theorem getDistinctColor_eq (n : Nat) :
    DISTINCT_COLORS[n % 21]? = some (getDistinctColor n) := by
  have hlt : n % 21 < DISTINCT_COLORS.length := by
    rw [DISTINCT_COLORS_length]; exact Nat.mod_lt _ (by norm_num)
  unfold getDistinctColor
  rw [DISTINCT_COLORS_length, List.getD_eq_getElem?_getD, List.getElem?_eq_getElem hlt]
  rfl

/-- C17, counterexample.  In the history `probeHistory` (create `a`, create `b`, remove
`a`, create `c`) the probe `c` has creation index 2, but it is created when one probe is
present and receives `DISTINCT_COLORS[1]`, the colour that `b` already has, not
`DISTINCT_COLORS[2]`. -/
theorem probe_colour_not_creation_index :
    ((applyProbeOps twoNeuronState probeHistory).probes.map (fun p => (p.id, p.color)))
      = [("b", "#3cb44b"), ("c", "#3cb44b")] ∧
    DISTINCT_COLORS[1]? = some "#3cb44b" ∧
    DISTINCT_COLORS[2 % 21]? = some "#ffe119" := by
  refine ⟨?_, ?_, ?_⟩ <;> decide

/-- A run of `addProbe` calls appends one probe per call, coloured by its index in the
list. -/
theorem addProbe_run (adds : List (Id × Id × SectionName × ℚ)) :
    ∀ s : State, ∃ ps : List Probe,
      (adds.foldl (fun st a => addProbe st a.1 a.2.1 a.2.2.1 a.2.2.2) s).probes
        = s.probes ++ ps ∧
      ps.length = adds.length ∧
      ∀ j : Nat, j < ps.length →
        ps[j]?.map Probe.color = some (getDistinctColor (s.probes.length + j)) := by
  induction adds with
  | nil => intro s; exact ⟨[], by simp, rfl, fun j hj => absurd hj (Nat.not_lt_zero _)⟩
  | cons a rest ih =>
    intro s
    obtain ⟨ps, hps, hlen, hcol⟩ := ih (addProbe s a.1 a.2.1 a.2.2.1 a.2.2.2)
    refine ⟨{ id := a.1, targetId := a.2.1, section_ := a.2.2.1, position := a.2.2.2,
              color := getDistinctColor s.probes.length } :: ps, ?_, ?_, ?_⟩
    · rw [List.foldl_cons, hps]
      simp [addProbe]
    · simp [hlen]
    · intro j hj
      cases j with
      | zero => simp
      | succ k =>
        have hk : k < ps.length := by simpa using hj
        have := hcol k hk
        simp only [addProbe, List.length_append, List.length_singleton] at this
        rw [List.getElem?_cons_succ, this]
        congr 2
        omega

/-- C17, amended.  A probe created by `addProbe` receives the colour
`DISTINCT_COLORS[n mod 21]`, where `n` is the number of probes in the list when it is
created; in a history of creations only, starting from no probe, `n` is the creation index
`k`, so the probe created `k`-th has colour `DISTINCT_COLORS[k mod 21]`. -/
theorem probe_colour_by_count (s : State) (newId targetId : Id) (sec : SectionName)
    (position : ℚ) (adds : List (Id × Id × SectionName × ℚ)) :
    (∃ c : String, DISTINCT_COLORS[s.probes.length % 21]? = some c ∧
      (addProbe s newId targetId sec position).probes
        = s.probes ++ [{ id := newId, targetId := targetId, section_ := sec,
                         position := position, color := c }]) ∧
    (s.probes = [] → ∀ k : Nat, k < adds.length →
      ((adds.foldl (fun st a => addProbe st a.1 a.2.1 a.2.2.1 a.2.2.2) s).probes)[k]?.map
          Probe.color
        = DISTINCT_COLORS[k % 21]?) := by
  constructor
  · exact ⟨getDistinctColor s.probes.length, getDistinctColor_eq _, rfl⟩
  · intro hs k hk
    obtain ⟨ps, hps, hlen, hcol⟩ := addProbe_run adds s
    rw [hps, hs, List.nil_append, hcol k (by rw [hlen]; exact hk), getDistinctColor_eq, hs]
    simp

/-- C17, amended, at `twoNeuronState`: of three probes created in a row, starting from
no probe, the third has colour `DISTINCT_COLORS[2]`. -/
theorem probe_colour_by_count_witness :
    ((([("a", "n1", SectionName.Soma, 1 / 2), ("b", "n1", SectionName.Soma, 1 / 2),
        ("c", "n2", SectionName.Soma, 1 / 2)] : List (Id × Id × SectionName × ℚ)).foldl
        (fun st a => addProbe st a.1 a.2.1 a.2.2.1 a.2.2.2) twoNeuronState).probes)[2]?.map
        Probe.color
      = some "#ffe119" :=
  ((probe_colour_by_count twoNeuronState "q" "n1" SectionName.Soma (1 / 2)
    [("a", "n1", SectionName.Soma, 1 / 2), ("b", "n1", SectionName.Soma, 1 / 2),
     ("c", "n2", SectionName.Soma, 1 / 2)]).2 rfl 2 (by decide)).trans (by decide)

/-! ### C18: switching to the soma -/

/-- C18, the code in `apicalState`.  The connection `c1` targets the apical dendrite at
position 0.7.  The target-section selector calls
`updateConnection(c1, 'targetSection', 'Soma')`: the connection then targets the soma and
still has position 0.7, not 0.5.  The section selector of the probe `p1`, which is on the
same dendrite at 0.7, does set its position to 0.5 when it switches it to the soma. -/
theorem connection_soma_switch_keeps_position :
    ((updateConnection apicalState "c1"
        (ConnectionField.targetSection SectionName.Soma)).connections.map
      (fun c => (c.id, c.targetSection, c.position)))
      = [("c1", SectionName.Soma, 7 / 10)] ∧
    ((probeSectionChange apicalState apicalProbe SectionName.Soma).probes.map
      (fun p => (p.id, p.section_, p.position)))
      = [("p1", SectionName.Soma, 1 / 2)] := by
  constructor <;> decide!

/-- The three selectors that can switch to the soma.  The probe section selector, when it
switches probe `p` to the soma, and the probe target selector, when the new target neuron
lacks the section of `p`, leave the probe with section `Soma` and position 0.5.  The
connection target-section selector (`updateConnection`) sets `targetSection` to `Soma`
and leaves every position as it was. -/
theorem soma_switch_position (s : State) (p : Probe) :
    (∀ q ∈ (probeSectionChange s p SectionName.Soma).probes, q.id = p.id →
      q.section_ = SectionName.Soma ∧ q.position = 1 / 2) ∧
    (∀ (newTargetId : Id) (targetNeuron : Neuron),
      s.neurons.find? (fun n => decide (n.id = newTargetId)) = some targetNeuron →
      ((p.section_ = SectionName.ApicalDendrite
          ∧ targetNeuron.morphology.includeApical = false)
        ∨ (p.section_ = SectionName.BasalDendrite
          ∧ targetNeuron.morphology.includeBasal = false)) →
      ∀ q ∈ (probeTargetChange s p newTargetId).probes, q.id = p.id →
        q.targetId = newTargetId ∧ q.section_ = SectionName.Soma ∧ q.position = 1 / 2) ∧
    (∀ id : Id,
      (updateConnection s id (ConnectionField.targetSection SectionName.Soma)).connections
        = s.connections.map (fun c =>
            if c.id = id then { c with targetSection := SectionName.Soma } else c) ∧
      (updateConnection s id
          (ConnectionField.targetSection SectionName.Soma)).connections.map Connection.position
        = s.connections.map Connection.position) := by
  refine ⟨?_, ?_, ?_⟩
  · intro q hq hid
    simp only [probeSectionChange, if_true, List.mem_map] at hq
    obtain ⟨pr, _, rfl⟩ := hq
    by_cases h : pr.id = p.id
    · simp [h]
    · exfalso
      simp [h] at hid
  · intro newTargetId targetNeuron hfind hmiss q hq hid
    simp only [probeTargetChange, hfind, hmiss, if_true, List.mem_map] at hq
    obtain ⟨pr, _, rfl⟩ := hq
    by_cases h : pr.id = p.id
    · simp [h]
    · exfalso
      simp [h] at hid
  · intro id
    constructor
    · rfl
    · simp only [updateConnection, List.map_map]
      apply List.map_congr_left
      intro c _
      simp only [Function.comp]
      split_ifs <;> rfl

/-- Example at `apicalState`: switching the probe `p1` (apical, 0.7) to the soma in its
section selector leaves it on the soma at position 0.5. -/
theorem soma_switch_position_witness :
    (probeSectionChange apicalState apicalProbe SectionName.Soma).probes
      = [{ apicalProbe with section_ := SectionName.Soma, position := 1 / 2 }] ∧
    ∀ q ∈ (probeSectionChange apicalState apicalProbe SectionName.Soma).probes,
      q.section_ = SectionName.Soma ∧ q.position = 1 / 2 := by
  have hp : (probeSectionChange apicalState apicalProbe SectionName.Soma).probes
      = [{ apicalProbe with section_ := SectionName.Soma, position := 1 / 2 }] := by decide!
  refine ⟨hp, ?_⟩
  intro q hq
  apply (soma_switch_position apicalState apicalProbe).1 q hq
  rw [hp] at hq
  simp only [List.mem_singleton] at hq
  rw [hq]

/-! ### C19: the position range -/

/-- C19, the code in `twoConnectionState`.  Every connection position is 0.5.  Typing 5
into the position field of `c1` calls `updateConnection(c1, 'position', 5)`, after which
`c1` has position 5, outside `[0, 1]`. -/
theorem connection_position_entry_unclamped :
    (∀ c ∈ twoConnectionState.connections, 0 ≤ c.position ∧ c.position ≤ 1) ∧
    ((updateConnection twoConnectionState "c1" (ConnectionField.position 5)).connections.map
      (fun c => (c.id, c.position))) = [("c1", 5), ("c2", 1 / 2)] ∧
    ¬ (∀ c ∈ (updateConnection twoConnectionState "c1"
          (ConnectionField.position 5)).connections, 0 ≤ c.position ∧ c.position ≤ 1) := by
  refine ⟨?_, ?_, ?_⟩
  · decide!
  · decide!
  · decide!

/-- Every hit returned by the loop body of `getHitNeuron` has its position in `[0, 1]`. -/
theorem hitNeuronAt_position_mem (width height : ℚ) (length : Nat) (x y : ℚ) (index : Nat)
    (neuron : Neuron) (hit : Hit)
    (h : hitNeuronAt width height length x y index neuron = Except.ok (some hit)) :
    0 ≤ hit.position ∧ hit.position ≤ 1 := by
  unfold hitNeuronAt at h
  simp only [basalBottomInit] at h
  split_ifs at h
  all_goals cases h
  · constructor <;> norm_num
  · exact clamp01_mem _

/-! ### C20: a click on a neuron adds a probe -/

/-- C20. Click adds a probe.  Outside drawing mode and with no preceding drag, for every
click location at which `getHitProbe` finds nothing and `getHitNeuron` returns
`(neuron, section, position)`, `handleCanvasClick` completes without error, appends
exactly one probe, with `targetId = neuron.id` and that section and position (its id is
the fresh `uuid()` value and its colour is `getDistinctColor(probes.length)`), keeps the
existing probes unchanged and in order, and leaves neurons, connections and stimulators
unchanged. -/
theorem click_adds_probe (s : State) (newId : Id) (x y : ℚ) (hit : Hit)
    (hdraw : s.connectionDrawMode = none) (hdrag : s.wasDragged = false)
    (hprobe : getHitProbe s x y = none)
    (hhit : getHitNeuron s x y = Except.ok (some hit)) :
    (handleCanvasClick s newId x y).error = none ∧
    (handleCanvasClick s newId x y).state.probes
      = s.probes ++ [{ id := newId, targetId := hit.neuron.id, section_ := hit.section_,
                       position := hit.position,
                       color := getDistinctColor s.probes.length }] ∧
    (handleCanvasClick s newId x y).state.neurons = s.neurons ∧
    (handleCanvasClick s newId x y).state.connections = s.connections ∧
    (handleCanvasClick s newId x y).state.stimulators = s.stimulators := by
  have hm := (getHitNeuron_some s x y hit hhit).1
  have h : handleCanvasClick s newId x y
      = { state := addProbe s newId hit.neuron.id hit.section_ hit.position,
          error := none } := by
    unfold handleCanvasClick
    simp [hdrag, hm, circuitSchematicRef, hdraw, hprobe, hhit]
  rw [h]
  exact ⟨rfl, rfl, rfl, rfl, rfl⟩

/-- C20 at `noBasalState`: a click at `(103, 104)`, inside the soma of `n1` and on no
probe, appends one probe on the soma of `n1` at position 0.5. -/
theorem click_adds_probe_witness :
    (handleCanvasClick noBasalState "new" 103 104).state.probes
      = [{ id := "new", targetId := "n1", section_ := SectionName.Soma, position := 1 / 2,
           color := "#e6194b" }] := by
  have hh : getHitNeuron noBasalState 103 104
      = Except.ok (some { neuron := neuron1, neuronPos := { x := 100, y := 100 },
                          section_ := SectionName.Soma, position := 1 / 2 }) := by decide!
  have h := click_adds_probe noBasalState "new" 103 104 _ rfl rfl (by decide!) hh
  rw [h.2.1]
  decide!

/-! ### The apical hit when the scan reaches the neuron -/

/-- If `(x, y)` is on the apical shaft of neuron `i` (length positive), outside its soma
disk, and the scan falls through every later-created neuron, `getHitNeuron` returns the
apical hit on neuron `i` with position `(neuronY - r - y) / (apicalL / 4)`, which lies in
`[0, 1]`. -/
theorem getHitNeuron_apical_of_scan (s : State) (x y : ℚ) (hm : s.mode = Mode.individual)
    (i : Nat) (n : Neuron) (hn : s.neurons[i]? = some n)
    (hinc : n.morphology.includeApical = true) (hL : 0 < n.morphology.apicalL)
    (hx1 : (neuronPos s.canvas.width s.canvas.height s.neurons.length i).x - 5 ≤ x)
    (hx2 : x ≤ (neuronPos s.canvas.width s.canvas.height s.neurons.length i).x + 5)
    (hy1 : s.canvas.height / 2 - n.morphology.somaDiam / 2 - n.morphology.apicalL / 4 ≤ y)
    (hy2 : y ≤ s.canvas.height / 2 - n.morphology.somaDiam / 2)
    (hsoma : withinDistance (x - (neuronPos s.canvas.width s.canvas.height s.neurons.length i).x)
      (y - s.canvas.height / 2) (n.morphology.somaDiam / 2) = false)
    (hlater : ∀ (j : Nat) (m : Neuron), s.neurons[j]? = some m → i < j →
      hitNeuronAt s.canvas.width s.canvas.height s.neurons.length x y j m = Except.ok none) :
    getHitNeuron s x y
      = Except.ok (some
          { neuron := n
            neuronPos := neuronPos s.canvas.width s.canvas.height s.neurons.length i
            section_ := SectionName.ApicalDendrite
            position := (s.canvas.height / 2 - n.morphology.somaDiam / 2 - y)
                          / (n.morphology.apicalL / 4) }) ∧
    0 ≤ (s.canvas.height / 2 - n.morphology.somaDiam / 2 - y) / (n.morphology.apicalL / 4) ∧
    (s.canvas.height / 2 - n.morphology.somaDiam / 2 - y) / (n.morphology.apicalL / 4) ≤ 1 := by
  have hq : (0 : ℚ) < n.morphology.apicalL / 4 := by positivity
  have h0 : 0 ≤ (s.canvas.height / 2 - n.morphology.somaDiam / 2 - y)
      / (n.morphology.apicalL / 4) := div_nonneg (by linarith) hq.le
  have h1 : (s.canvas.height / 2 - n.morphology.somaDiam / 2 - y)
      / (n.morphology.apicalL / 4) ≤ 1 := by
    rw [div_le_one hq]; linarith
  refine ⟨?_, h0, h1⟩
  apply getHitNeuron_scan s x y hm i n hn _ hlater
  unfold hitNeuronAt
  have hy : (neuronPos s.canvas.width s.canvas.height s.neurons.length i).y
      = s.canvas.height / 2 := rfl
  have hsoma2 : withinDistance
      (x - (neuronPos s.canvas.width s.canvas.height s.neurons.length i).x)
      (y - (neuronPos s.canvas.width s.canvas.height s.neurons.length i).y)
      (n.morphology.somaDiam / 2) = false := by rw [hy]; exact hsoma
  have hrect : n.morphology.includeApical = true
      ∧ x ≥ (neuronPos s.canvas.width s.canvas.height s.neurons.length i).x - 5
      ∧ x ≤ (neuronPos s.canvas.width s.canvas.height s.neurons.length i).x + 5
      ∧ y ≥ (neuronPos s.canvas.width s.canvas.height s.neurons.length i).y
            - n.morphology.somaDiam / 2 - n.morphology.apicalL / 4
      ∧ y ≤ (neuronPos s.canvas.width s.canvas.height s.neurons.length i).y
            - n.morphology.somaDiam / 2 := by
    rw [hy]; exact ⟨hinc, hx1, hx2, hy1, hy2⟩
  simp only [hsoma2, Bool.false_eq_true, if_false, hrect, if_true]
  rw [hy]
  unfold apicalPositionAt
  simp only
  rw [clamp01_of_mem h0 h1]
  simp

/-! ### C21: dragging a connection endpoint -/

/-- Mapping an update over the connections with the id of `c` changes `c` alone when ids
are pairwise distinct. -/
theorem map_update_of_nodup (before after : List Connection) (c : Connection)
    (f : Connection → Connection)
    (hnd : ((before ++ c :: after).map Connection.id).Nodup) :
    (before ++ c :: after).map (fun d => if d.id = c.id then f d else d)
      = before ++ f c :: after := by
  rw [List.map_append, List.map_cons] at hnd
  have hb : ∀ d ∈ before, d.id ≠ c.id := by
    intro d hd heq
    have h1 := (List.nodup_append.mp hnd).2.2
    exact h1 (List.mem_map_of_mem Connection.id hd) (by rw [heq]; exact List.mem_cons_self _ _)
  have ha : ∀ d ∈ after, d.id ≠ c.id := by
    intro d hd heq
    have h1 := (List.nodup_cons.mp (List.nodup_append.mp hnd).2.1).1
    exact h1 (by rw [← heq]; exact List.mem_map_of_mem Connection.id hd)
  have e1 : before.map (fun d => if d.id = c.id then f d else d) = before := by
    conv_rhs => rw [← List.map_id before]
    apply List.map_congr_left
    intro d hd
    simp [hb d hd]
  have e2 : after.map (fun d => if d.id = c.id then f d else d) = after := by
    conv_rhs => rw [← List.map_id after]
    apply List.map_congr_left
    intro d hd
    simp [ha d hd]
  rw [List.map_append, List.map_cons, e1, e2]
  simp

/-- C21. Connection-endpoint drag.  While the connection `c` is being dragged
(`draggedConnectionId = c.id`), a pointer move at a location where `getHitNeuron` returns
`(neuron, section, position)` completes without error and rewrites the connection list by
setting `targetId`, `targetSection` and `position` of the connection with the id of `c` to
that hit: `id`, `sourceId`, `synapseType`, `weight` and `delay` of `c` are kept and every
connection with another id is unchanged (with pairwise distinct ids the list
`before ++ c :: after` becomes `before ++ c' :: after`).  A pointer move where
`getHitNeuron` returns `null` leaves the connection list unchanged. -/
theorem connection_drag_retargets (s : State) (x y : ℚ) (c : Connection)
    (hdrag : s.draggedConnectionId = some c.id) :
    (∀ hit : Hit, getHitNeuron s x y = Except.ok (some hit) →
      (handleMouseMove s x y).error = none ∧
      (handleMouseMove s x y).state.connections
        = s.connections.map (fun d =>
            if d.id = c.id then
              { id := d.id, sourceId := d.sourceId, targetId := some hit.neuron.id,
                synapseType := d.synapseType, targetSection := hit.section_,
                position := hit.position, weight := d.weight, delay := d.delay }
            else d) ∧
      (∀ before after : List Connection, s.connections = before ++ c :: after →
        (s.connections.map Connection.id).Nodup →
        (handleMouseMove s x y).state.connections
          = before ++
              { id := c.id, sourceId := c.sourceId, targetId := some hit.neuron.id,
                synapseType := c.synapseType, targetSection := hit.section_,
                position := hit.position, weight := c.weight, delay := c.delay } :: after)) ∧
    (getHitNeuron s x y = Except.ok none →
      (handleMouseMove s x y).error = none ∧
      (handleMouseMove s x y).state.connections = s.connections) := by
  constructor
  · intro hit hhit
    have hm := (getHitNeuron_some s x y hit hhit).1
    have h : (handleMouseMove s x y).error = none ∧
        (handleMouseMove s x y).state.connections
          = s.connections.map (fun d =>
              if d.id = c.id then
                { id := d.id, sourceId := d.sourceId, targetId := some hit.neuron.id,
                  synapseType := d.synapseType, targetSection := hit.section_,
                  position := hit.position, weight := d.weight, delay := d.delay }
              else d) := by
      unfold handleMouseMove
      simp [hm, circuitSchematicRef, hdrag, hhit]
    refine ⟨h.1, h.2, ?_⟩
    intro before after hsplit hnd
    rw [h.2, hsplit]
    rw [hsplit] at hnd
    exact map_update_of_nodup before after c _ hnd
  · intro hnone
    unfold handleMouseMove
    by_cases hm : s.mode = Mode.individual
    · simp [hm, circuitSchematicRef, hdrag, hnone]
    · simp [hm]

/-- C21 at `connectionDragState`: while `c1` is dragged, a pointer move to `(103, 104)`,
inside the soma of `n1`, retargets `c1` to the soma of `n1` and leaves `c2` as it is; a
pointer move to `(150, 100)`, on nothing, leaves both connections as they are. -/
theorem connection_drag_retargets_witness :
    (handleMouseMove connectionDragState 103 104).state.connections
      = [{ somaConnection "c1" with targetId := some "n1" }, somaConnection "c2"] ∧
    (handleMouseMove connectionDragState 150 100).state.connections
      = [somaConnection "c1", somaConnection "c2"] := by
  have hh : getHitNeuron connectionDragState 103 104
      = Except.ok (some { neuron := bareNeuron1, neuronPos := { x := 100, y := 100 },
                          section_ := SectionName.Soma, position := 1 / 2 }) := by decide!
  have hn : getHitNeuron connectionDragState 150 100 = Except.ok none := by decide!
  have h := connection_drag_retargets connectionDragState 103 104 (somaConnection "c1") rfl
  have h2 := connection_drag_retargets connectionDragState 150 100 (somaConnection "c1") rfl
  refine ⟨?_, (h2.2 hn).2⟩
  rw [(h.1 _ hh).2.2 [] [somaConnection "c2"] rfl (by decide)]
  rfl

/-! ### C22: dragging a probe -/

/-- C22, counterexample.  In `probeDragState` the probe `p1`, on the apical dendrite of
`n1` at position 0.7, is being dragged.  A pointer move to `(200, 100)`, the soma centre of
the other neuron `n2` (where `getHitNeuron` reports the soma of `n2`), leaves the probe on
the apical dendrite of `n1`: only its position changes, to 0. -/
theorem probe_drag_keeps_target :
    (getHitNeuron probeDragState 200 100).map (Option.map (fun h => (h.neuron.id, h.section_)))
      = Except.ok (some ("n2", SectionName.Soma)) ∧
    (handleMouseMove probeDragState 200 100).error = none ∧
    ((handleMouseMove probeDragState 200 100).state.probes.map
      (fun p => (p.id, p.targetId, p.section_, p.position)))
      = [("p1", "n1", SectionName.ApicalDendrite, 0)] := by
  refine ⟨?_, ?_, ?_⟩ <;> decide!

/-- C22, amended.  While a probe that is not Soma-anchored is being dragged (no connection
is dragged, the probe and its target neuron exist) along a dendrite of positive length, a
pointer move completes without error and keeps the `targetId` and the section of the
probe, wherever the pointer is: it sets the position of the probe to the inverse mapping
of the pointer height along the probe's own section, clamped to `[0, 1]`, and leaves every
probe with another id unchanged.  (The length is positive so that the quotient of the
inverse mapping is the one the code computes.) -/
theorem probe_drag_slides (s : State) (x y : ℚ) (probe : Probe) (neuron : Neuron)
    (hm : s.mode = Mode.individual) (hconn : s.draggedConnectionId = none)
    (hdrag : s.draggedProbeId = some probe.id)
    (hfind : s.probes.find? (fun p => decide (p.id = probe.id)) = some probe)
    (hsec : probe.section_ ≠ SectionName.Soma)
    (hneuron : s.neurons.find? (fun n => decide (n.id = probe.targetId)) = some neuron)
    (_hlength : (probe.section_ = SectionName.ApicalDendrite → 0 < neuron.morphology.apicalL)
      ∧ (probe.section_ = SectionName.BasalDendrite → 0 < neuron.morphology.basalL)) :
    (handleMouseMove s x y).error = none ∧
    (handleMouseMove s x y).state.probes
      = s.probes.map (fun p =>
          if p.id = probe.id then
            { id := p.id, targetId := p.targetId, section_ := p.section_,
              position := probeDragPosition probe neuron s.canvas y, color := p.color }
          else p) ∧
    0 ≤ probeDragPosition probe neuron s.canvas y ∧
    probeDragPosition probe neuron s.canvas y ≤ 1 := by
  have h : handleMouseMove s x y
      = { state := updateProbePosition
            { s with mousePos := { x := x, y := y }, wasDragged := true } probe.id
            (probeDragPosition probe neuron s.canvas y),
          error := none } := by
    unfold handleMouseMove
    simp [hm, circuitSchematicRef, hconn, hdrag, hfind, hsec, hneuron]
  rw [h]
  refine ⟨rfl, rfl, ?_, ?_⟩
  · unfold probeDragPosition; exact (clamp01_mem _).1
  · unfold probeDragPosition; exact (clamp01_mem _).2

/-- C22, amended, at `probeDragState`: a pointer move to `(200, 40)`, on the apical shaft
of `n2`, keeps the probe `p1` on the apical dendrite of `n1` and sets its position to 0.5
(the apical span of `n1` runs from height 90 up to height -10). -/
theorem probe_drag_slides_witness :
    (handleMouseMove probeDragState 200 40).state.probes
      = [{ apicalProbe with position := 1 / 2 }] := by
  have h := probe_drag_slides probeDragState 200 40 apicalProbe neuron1 rfl rfl rfl
    (by decide!) (by decide) (by decide!)
    ⟨fun _ => by norm_num [neuron1, defaultMorphology], fun h => by cases h⟩
  rw [h.2.1]
  decide!

/-! ### C23: references to neurons -/

/-- C23, the code in `emptyState` (no neuron, no connection, no probe: every reference
exists).  The "Add Connection" button calls `addConnection(neurons[0]?.id, ...)` with
`undefined` ids: the new connection has no source and no target neuron, so the invariant
no longer holds. -/
theorem add_connection_without_neuron_dangles :
    ReferencesExist emptyState ∧
    ((addConnectionButton emptyState "c1").connections.map
      (fun c => (c.id, c.sourceId, c.targetId))) = [("c1", none, none)] ∧
    ¬ ReferencesExist (addConnectionButton emptyState "c1") := by
  refine ⟨?_, ?_, ?_⟩
  · constructor
    · intro c hc; cases hc
    · intro p hp; cases hp
  · rfl
  · intro h
    obtain ⟨⟨n, hn, _⟩, _⟩ := h.1 _ (List.mem_singleton.mpr rfl)
    cases hn

/-- The invariant depends on the neurons, connections and probes only. -/
theorem referencesExist_congr (s t : State) (hn : t.neurons = s.neurons)
    (hc : t.connections = s.connections) (hp : t.probes = s.probes)
    (h : ReferencesExist s) : ReferencesExist t := by
  unfold ReferencesExist at h ⊢
  rw [hn, hc, hp]
  exact h

/-- The handler `addNeuron` keeps every reference valid. -/
theorem addNeuron_references (s : State) (newId : Id) (h : ReferencesExist s) :
    ReferencesExist (addNeuron s newId) := by
  obtain ⟨hc, hp⟩ := h
  constructor
  · intro c hmem
    obtain ⟨⟨n, hn, h1⟩, ⟨m, hm, h2⟩⟩ := hc c hmem
    exact ⟨⟨n, List.mem_append_left _ hn, h1⟩, ⟨m, List.mem_append_left _ hm, h2⟩⟩
  · intro p hmem
    obtain ⟨n, hn, h1⟩ := hp p hmem
    exact ⟨n, List.mem_append_left _ hn, h1⟩

/-- The handler `removeNeuron` keeps every reference valid. -/
theorem removeNeuron_references (s : State) (idToRemove : Id) (h : ReferencesExist s) :
    ReferencesExist (removeNeuron s idToRemove) := by
  obtain ⟨hc, hp⟩ := h
  constructor
  · intro c hmem
    simp only [removeNeuron, List.mem_filter, decide_eq_true_eq] at hmem
    obtain ⟨hmem, hs, ht⟩ := hmem
    obtain ⟨⟨n, hn, h1⟩, ⟨m, hm, h2⟩⟩ := hc c hmem
    refine ⟨⟨n, ?_, h1⟩, ⟨m, ?_, h2⟩⟩
    · simp only [removeNeuron, List.mem_filter, decide_eq_true_eq]
      exact ⟨hn, fun heq => hs (by rw [← h1, heq])⟩
    · simp only [removeNeuron, List.mem_filter, decide_eq_true_eq]
      exact ⟨hm, fun heq => ht (by rw [← h2, heq])⟩
  · intro p hmem
    simp only [removeNeuron, List.mem_filter, decide_eq_true_eq] at hmem
    obtain ⟨hmem, ht⟩ := hmem
    obtain ⟨n, hn, h1⟩ := hp p hmem
    refine ⟨n, ?_, h1⟩
    simp only [removeNeuron, List.mem_filter, decide_eq_true_eq]
    exact ⟨hn, fun heq => ht (by rw [← h1, heq])⟩

/-- Appending a connection whose source and target exist keeps every reference valid. -/
theorem addConnection_references (s : State) (newId : Id) (src tgt : Neuron)
    (hsrc : src ∈ s.neurons) (htgt : tgt ∈ s.neurons) (syn : SynapseType)
    (sec : SectionName) (position : ℚ) (h : ReferencesExist s) :
    ReferencesExist (addConnection s newId (some src.id) (some tgt.id) syn sec position) := by
  obtain ⟨hc, hp⟩ := h
  constructor
  · intro c hmem
    simp only [addConnection, List.mem_append, List.mem_singleton] at hmem
    rcases hmem with hmem | rfl
    · exact hc c hmem
    · exact ⟨⟨src, hsrc, rfl⟩, ⟨tgt, htgt, rfl⟩⟩
  · exact hp

/-- The "Add Connection" button keeps every reference valid when there is a neuron. -/
theorem addConnectionButton_references (s : State) (newId : Id) (hne : s.neurons ≠ [])
    (h : ReferencesExist s) : ReferencesExist (addConnectionButton s newId) := by
  cases hl : s.neurons with
  | nil => exact absurd hl hne
  | cons n rest =>
    have hmem : n ∈ s.neurons := by rw [hl]; exact List.mem_cons_self _ _
    have := addConnection_references s newId n n hmem hmem SynapseType.AMPA
      SectionName.Soma (1 / 2) h
    unfold addConnectionButton
    rw [hl]
    exact this

/-- Appending a probe whose target exists keeps every reference valid. -/
theorem addProbe_references (s : State) (newId : Id) (tgt : Neuron) (htgt : tgt ∈ s.neurons)
    (sec : SectionName) (position : ℚ) (h : ReferencesExist s) :
    ReferencesExist (addProbe s newId tgt.id sec position) := by
  obtain ⟨hc, hp⟩ := h
  constructor
  · exact hc
  · intro p hmem
    simp only [addProbe, List.mem_append, List.mem_singleton] at hmem
    rcases hmem with hmem | rfl
    · exact hp p hmem
    · exact ⟨tgt, htgt, rfl⟩

/-- The handler `removeProbe` keeps every reference valid. -/
theorem removeProbe_references (s : State) (id : Id) (h : ReferencesExist s) :
    ReferencesExist (removeProbe s id) := by
  obtain ⟨hc, hp⟩ := h
  constructor
  · exact hc
  · intro p hmem
    simp only [removeProbe, List.mem_filter] at hmem
    exact hp p hmem.1

/-- The neuron of a hit returned by `getHitNeuron` is a neuron of the state. -/
theorem getHitNeuron_mem (s : State) (x y : ℚ) (hit : Hit)
    (h : getHitNeuron s x y = Except.ok (some hit)) : hit.neuron ∈ s.neurons := by
  obtain ⟨_, i, hi, hn, _, _⟩ := getHitNeuron_some s x y hit h
  rw [hn]
  exact List.get_mem _ _ _

/-- Retargeting connections to an existing neuron keeps every reference valid. -/
theorem retarget_references (s t : State) (id : Id) (tgt : Neuron) (htgt : tgt ∈ s.neurons)
    (sec : SectionName) (position : ℚ) (hn : t.neurons = s.neurons)
    (hc : t.connections = s.connections.map (fun c =>
      if c.id = id then
        { c with targetId := some tgt.id, targetSection := sec, position := position }
      else c))
    (hp : t.probes = s.probes) (h : ReferencesExist s) : ReferencesExist t := by
  obtain ⟨hcs, hps⟩ := h
  unfold ReferencesExist
  rw [hn, hc, hp]
  refine ⟨?_, hps⟩
  intro c hmem
  simp only [List.mem_map] at hmem
  obtain ⟨d, hd, rfl⟩ := hmem
  by_cases hid : d.id = id
  · simp only [hid, if_true]
    exact ⟨(hcs d hd).1, ⟨tgt, htgt, rfl⟩⟩
  · simp only [hid, if_false]
    exact hcs d hd

/-- Changing the position of probes keeps every reference valid. -/
theorem updateProbePosition_references (s : State) (id : Id) (value : ℚ)
    (h : ReferencesExist s) : ReferencesExist (updateProbePosition s id value) := by
  obtain ⟨hcs, hps⟩ := h
  refine ⟨hcs, ?_⟩
  intro p hmem
  simp only [updateProbePosition, List.mem_map] at hmem
  obtain ⟨q, hq, rfl⟩ := hmem
  by_cases hid : q.id = id
  · simp only [hid, if_true]
    exact hps q hq
  · simp only [hid, if_false]
    exact hps q hq

/-- The handler `handleMouseMove` (connection-endpoint drag, probe drag, plain move) keeps
every reference valid, whether or not it completes. -/
theorem handleMouseMove_references (s : State) (x y : ℚ) (h : ReferencesExist s) :
    ReferencesExist (handleMouseMove s x y).state := by
  unfold handleMouseMove
  by_cases hm : s.mode = Mode.individual
  · simp only [hm, ne_eq, not_true_eq_false, if_false, circuitSchematicRef, if_true]
    cases hdc : s.draggedConnectionId with
    | some cid =>
      cases hh : getHitNeuron s x y with
      | error e => exact referencesExist_congr s _ rfl rfl rfl h
      | ok r =>
        cases r with
        | none => exact referencesExist_congr s _ rfl rfl rfl h
        | some hit =>
          exact retarget_references s _ cid hit.neuron (getHitNeuron_mem s x y hit hh)
            hit.section_ hit.position rfl rfl rfl h
    | none =>
      cases hdp : s.draggedProbeId with
      | none => exact referencesExist_congr s _ rfl rfl rfl h
      | some pid =>
        simp only
        cases hf : s.probes.find? (fun p => decide (p.id = pid)) with
        | none => exact referencesExist_congr s _ rfl rfl rfl h
        | some probe =>
          simp only
          by_cases hs : probe.section_ = SectionName.Soma
          · simp only [hs, if_true]
            exact referencesExist_congr s _ rfl rfl rfl h
          · simp only [hs, if_false]
            cases hn : s.neurons.find? (fun n => decide (n.id = probe.targetId)) with
            | none => exact referencesExist_congr s _ rfl rfl rfl h
            | some neuron =>
              exact updateProbePosition_references _ _ _
                (referencesExist_congr s _ rfl rfl rfl h)
  · simp only [hm, ne_eq, not_false_eq_true, if_true]
    exact h

/-- The handler `handleCanvasClick` (probe added or removed, start point captured, draw
completed) keeps every reference valid, provided a captured start point names an existing
neuron. -/
theorem handleCanvasClick_references (s : State) (newId : Id) (x y : ℚ)
    (hstart : ∀ start : StartPoint, s.connectionStartPoint = some start →
      ∃ n ∈ s.neurons, n.id = start.neuronId)
    (h : ReferencesExist s) : ReferencesExist (handleCanvasClick s newId x y).state := by
  unfold handleCanvasClick
  by_cases hw : s.wasDragged = true
  · simp only [hw, if_true]
    exact referencesExist_congr s _ rfl rfl rfl h
  · by_cases hm : s.mode = Mode.individual
    · simp only [hw, Bool.false_eq_true, if_false, hm, ne_eq, not_true_eq_false,
        circuitSchematicRef, if_true]
      cases hd : s.connectionDrawMode with
      | some drawMode =>
        simp only
        cases hh : getHitNeuron s x y with
        | error e => exact h
        | ok r =>
          cases r with
          | none => exact h
          | some hit =>
            simp only
            cases hsp : s.connectionStartPoint with
            | none => exact referencesExist_congr s _ rfl rfl rfl h
            | some start =>
              obtain ⟨n, hn, hid⟩ := hstart start hsp
              have := addConnection_references s newId n hit.neuron hn
                (getHitNeuron_mem s x y hit hh) drawMode hit.section_ hit.position h
              rw [hid] at this
              exact referencesExist_congr _ _ rfl rfl rfl this
      | none =>
        simp only
        cases hp : getHitProbe s x y with
        | some probeHit => exact removeProbe_references s _ h
        | none =>
          simp only
          cases hh : getHitNeuron s x y with
          | error e => exact h
          | ok r =>
            cases r with
            | none => exact h
            | some hit =>
              exact addProbe_references s newId hit.neuron (getHitNeuron_mem s x y hit hh)
                hit.section_ hit.position h
    · simp only [hw, Bool.false_eq_true, if_false, hm, ne_eq, not_false_eq_true, if_true]
      exact h

/-- The "Add Probe to Selected" button keeps every reference valid, provided the selected
id names an existing neuron. -/
theorem addProbeToSelected_references (s : State) (newId : Id)
    (hsel : ∀ id : Id, s.selectedNeuronId = some id → ∃ n ∈ s.neurons, n.id = id)
    (h : ReferencesExist s) : ReferencesExist (addProbeToSelected s newId) := by
  unfold addProbeToSelected
  cases hs : s.selectedNeuronId with
  | none => exact h
  | some id =>
    obtain ⟨n, hn, hid⟩ := hsel id hs
    have := addProbe_references s newId n hn SectionName.Soma (1 / 2) h
    rw [hid] at this
    exact this

/-- A second way to a dangling reference.  In `bareState`: arm AMPA drawing, click the
soma of `n2` (start point captured), remove `n2` in the circuit manager (the start point
is kept), click the soma of the remaining neuron `n1`, now centred at `(150, 100)`.  Before
the last click every reference exists; the click completes a connection whose source is
the removed `n2`. -/
theorem draw_completion_stale_start_dangles :
    ReferencesExist
      (removeNeuron (handleCanvasClick (toggleDrawMode bareState SynapseType.AMPA)
        "x" 200 100).state "n2") ∧
    ((handleCanvasClick
        (removeNeuron (handleCanvasClick (toggleDrawMode bareState SynapseType.AMPA)
          "x" 200 100).state "n2") "c1" 150 100).state.connections.map
      (fun c => (c.sourceId, c.targetId))) = [(some "n2", some "n1")] ∧
    ((handleCanvasClick
        (removeNeuron (handleCanvasClick (toggleDrawMode bareState SynapseType.AMPA)
          "x" 200 100).state "n2") "c1" 150 100).state.neurons.map Neuron.id) = ["n1"] := by
  refine ⟨?_, ?_, ?_⟩
  · apply removeNeuron_references
    have h1 : (handleCanvasClick (toggleDrawMode bareState SynapseType.AMPA)
        "x" 200 100).state.connections = [] := by decide!
    have h2 : (handleCanvasClick (toggleDrawMode bareState SynapseType.AMPA)
        "x" 200 100).state.probes = [] := by decide!
    constructor
    · intro c hc; rw [h1] at hc; cases hc
    · intro p hp; rw [h2] at hp; cases hp
  · decide!
  · decide!

/-! ### C24: the render effect and the hit tests -/

/-- With pairwise distinct ids, `neurons.find` finds neuron `i` by its id. -/
theorem find?_id_get (neurons : List Neuron) (hnd : (neurons.map Neuron.id).Nodup)
    (i : Nat) (hi : i < neurons.length) :
    neurons.find? (fun n => decide (n.id = (neurons.get ⟨i, hi⟩).id))
      = some (neurons.get ⟨i, hi⟩) := by
  apply find?_eq_some_of_unique
  · exact List.get_mem _ _ _
  · simp
  · intro m hm hp
    obtain ⟨k, hk, hget⟩ := List.mem_iff_getElem.mp hm
    have hid : m.id = (neurons.get ⟨i, hi⟩).id := by simpa using hp
    have hk2 : k < (neurons.map Neuron.id).length := by simpa using hk
    have hi2 : i < (neurons.map Neuron.id).length := by simpa using hi
    have h1 : (neurons.map Neuron.id).get ⟨k, hk2⟩ = (neurons.map Neuron.id).get ⟨i, hi2⟩ := by
      simp only [List.get_eq_getElem, List.getElem_map, hget]
      simpa using hid
    have hki : k = i := Fin.mk.inj ((List.Nodup.get_inj_iff hnd).mp h1)
    subst hki
    rw [← hget]
    rfl

/-- C24, counterexample.  Two circuits on which the render effect and the hit tests
disagree.  In `danglingSourceState` the connection `c9` targets the soma of the existing
neuron `n1`, but its source neuron does not exist: the render effect returns before
drawing it, so there is no point at which its edge ends, while `getHitConnection` measures
to `(100, 100)` and returns the connection there.  For the two default neurons and a
bounding rectangle of 300.5 x 200.5 the render effect leaves a canvas of 300 x 200: the
marker of the probe on the apical dendrite of `n1` at position 0.7 is centred at
`(601/6, 81/4)`, while `getHitProbe` measures to `(100, 20)`. -/
theorem render_and_hit_test_disagree :
    (∃ n ∈ danglingSourceState.neurons, some n.id = danglingSourceConnection.targetId) ∧
    renderConnectionEnd danglingSourceState.neurons 300 200 danglingSourceConnection = none ∧
    connectionTarget danglingSourceState.neurons 300 200 danglingSourceConnection
      = some { x := 100, y := 100 } ∧
    getHitConnection danglingSourceState 100 100 = some danglingSourceConnection ∧
    renderedCanvas (601 / 2) (401 / 2) = { width := 300, height := 200 } ∧
    renderProbeCentre twoNeurons (601 / 2) (401 / 2) apicalProbe
      = some { x := 601 / 6, y := 81 / 4 } ∧
    probeTarget twoNeurons (renderedCanvas (601 / 2) (401 / 2)).width
        (renderedCanvas (601 / 2) (401 / 2)).height apicalProbe
      = some { x := 100, y := 20 } := by
  refine ⟨⟨neuron1, by decide, rfl⟩, ?_, ?_, ?_, ?_, ?_, ?_⟩ <;> decide!

/-- Render effect and hit tests computed from the same width and height.  For every list
of neurons with pairwise distinct ids: for every probe whose target neuron exists, the
render effect draws its marker and the centre of the marker is the point `getHitProbe`
measures to; for every connection whose source and target neurons exist, the render effect
draws its edge and the end of the edge (the tip of the arrowhead) is the point
`getHitConnection` measures to.  A connection whose source neuron does not exist is not
drawn. -/
theorem render_agrees_at_equal_size (neurons : List Neuron) (W H : ℚ)
    (hnd : (neurons.map Neuron.id).Nodup) :
    (∀ probe : Probe, (∃ n ∈ neurons, n.id = probe.targetId) →
      ∃ pt : Point, renderProbeCentre neurons W H probe = some pt ∧
        probeTarget neurons W H probe = some pt) ∧
    (∀ conn : Connection, (∃ n ∈ neurons, some n.id = conn.targetId) →
      (∃ n ∈ neurons, some n.id = conn.sourceId) →
      ∃ pt : Point, renderConnectionEnd neurons W H conn = some pt ∧
        connectionTarget neurons W H conn = some pt) ∧
    (∀ conn : Connection, (¬ ∃ n ∈ neurons, some n.id = conn.sourceId) →
      renderConnectionEnd neurons W H conn = none) := by
  refine ⟨?_, ?_, ?_⟩
  · rintro probe ⟨n, hn, hid⟩
    obtain ⟨i, hi, hget⟩ := List.mem_iff_getElem.mp hn
    have hget2 : neurons.get ⟨i, hi⟩ = n := hget
    have hf := findNeuron_get neurons hnd i hi
    have hp := neuronPositions_get neurons W H hnd i hi
    have hq := find?_id_get neurons hnd i hi
    rw [hget2, hid] at hf hp hq
    unfold renderProbeCentre probeTarget
    simp only [lookupPosition, hp, hq, hf]
    refine ⟨_, rfl, ?_⟩
    cases hs : probe.section_ <;> simp [sectionY, neuronPos]
  · rintro conn ⟨n, hn, hid⟩ ⟨m, hm, hsrc⟩
    obtain ⟨i, hi, hget⟩ := List.mem_iff_getElem.mp hn
    obtain ⟨j, hj, hgetj⟩ := List.mem_iff_getElem.mp hm
    have hget2 : neurons.get ⟨i, hi⟩ = n := hget
    have hgetj2 : neurons.get ⟨j, hj⟩ = m := hgetj
    have hf := findNeuron_get neurons hnd i hi
    have hp := neuronPositions_get neurons W H hnd i hi
    have hq := find?_id_get neurons hnd i hi
    have hps := neuronPositions_get neurons W H hnd j hj
    rw [hget2] at hf hp hq
    rw [hgetj2] at hps
    have hq2 : neurons.find? (fun k => decide (some k.id = conn.targetId)) = some n := by
      rw [← hid]
      simpa using hq
    unfold renderConnectionEnd connectionTarget
    rw [← hid, ← hsrc] at *
    simp only [lookupPosition, hp, hps, hf]
    rw [hid] at *
    simp only [hq2]
    exact ⟨_, rfl, rfl⟩
  · intro conn hno
    unfold renderConnectionEnd
    cases hs : conn.sourceId with
    | none => simp [lookupPosition]
    | some sid =>
      cases ht : neuronPositions neurons W H sid with
      | none => simp [lookupPosition, ht]
      | some pt =>
        exfalso
        apply hno
        -- a position in the table was assigned by a neuron with that id
        have hex : ∀ (entries : List (Nat × Neuron)) (table : Id → Option Point),
            entries.foldl (assignPosition W H neurons.length) table sid = some pt →
            (∃ e ∈ entries, e.2.id = sid) ∨ table sid = some pt := by
          intro entries
          induction entries with
          | nil => intro table h; exact Or.inr h
          | cons a rest ih =>
            intro table h
            rw [List.foldl_cons] at h
            rcases ih _ h with ⟨e, he, hk⟩ | h2
            · exact Or.inl ⟨e, List.mem_cons_of_mem _ he, hk⟩
            · by_cases ha : sid = a.2.id
              · exact Or.inl ⟨a, List.mem_cons_self _ _, ha.symm⟩
              · simp only [assignPosition, ha, if_false] at h2
                exact Or.inr h2
        rcases hex _ _ ht with ⟨e, he, hk⟩ | h2
        · exact ⟨e.2, List.snd_mem_of_mem_enum he, by rw [hk, hs]⟩
        · cases h2

/-- C24, amended.  Render / hit-test agreement.  For every list of neurons with pairwise
distinct ids and every bounding rectangle whose width and height are whole numbers (so
that the canvas the render effect leaves has the size it drew with): for every probe whose
target neuron exists, the render effect draws its marker and the centre of the marker is
the point `getHitProbe` measures to on that canvas; for every connection whose source and
target neurons exist, the render effect draws its edge and the end of the edge (the tip of
the arrowhead) is the point `getHitConnection` measures to on that canvas.  A connection
whose source neuron does not exist is not drawn. -/
theorem render_agrees_with_hit_tests (neurons : List Neuron) (width height : ℚ)
    (hnd : (neurons.map Neuron.id).Nodup)
    (hwidth : canvasAttribute width = width) (hheight : canvasAttribute height = height) :
    (∀ probe : Probe, (∃ n ∈ neurons, n.id = probe.targetId) →
      ∃ pt : Point, renderProbeCentre neurons width height probe = some pt ∧
        probeTarget neurons (renderedCanvas width height).width
          (renderedCanvas width height).height probe = some pt) ∧
    (∀ conn : Connection, (∃ n ∈ neurons, some n.id = conn.targetId) →
      (∃ n ∈ neurons, some n.id = conn.sourceId) →
      ∃ pt : Point, renderConnectionEnd neurons width height conn = some pt ∧
        connectionTarget neurons (renderedCanvas width height).width
          (renderedCanvas width height).height conn = some pt) ∧
    (∀ conn : Connection, (¬ ∃ n ∈ neurons, some n.id = conn.sourceId) →
      renderConnectionEnd neurons width height conn = none) := by
  have hw : (renderedCanvas width height).width = width := hwidth
  have hh : (renderedCanvas width height).height = height := hheight
  rw [hw, hh]
  exact render_agrees_at_equal_size neurons width height hnd

/-- C24, amended, at the two default neurons and a bounding rectangle of 300 x 200: the
canvas is 300 x 200; the probe on the apical dendrite of `n1` at position 0.7 is drawn at
`(100, 20)`, where `getHitProbe` measures to, and the connection from `n2` onto that
dendrite at position 0.7 ends at `(100, 20)`, where `getHitConnection` measures to. -/
theorem render_agrees_with_hit_tests_witness :
    renderedCanvas 300 200 = { width := 300, height := 200 } ∧
    renderProbeCentre twoNeurons 300 200 apicalProbe = some { x := 100, y := 20 } ∧
    probeTarget twoNeurons 300 200 apicalProbe = some { x := 100, y := 20 } ∧
    renderConnectionEnd twoNeurons 300 200 apicalConnection = some { x := 100, y := 20 } ∧
    connectionTarget twoNeurons 300 200 apicalConnection = some { x := 100, y := 20 } := by
  have hc : renderedCanvas 300 200 = { width := 300, height := 200 } := by decide!
  have h := render_agrees_with_hit_tests twoNeurons 300 200 (by decide) (by decide!)
    (by decide!)
  rw [hc] at h
  obtain ⟨pt, hr, ht⟩ := h.1 apicalProbe ⟨neuron1, by decide, rfl⟩
  obtain ⟨qt, hr2, ht2⟩ := h.2.1 apicalConnection ⟨neuron1, by decide, rfl⟩
    ⟨{ id := "n2", name := "Neuron 2", morphology := defaultMorphology }, by decide, rfl⟩
  have e1 : probeTarget twoNeurons 300 200 apicalProbe = some { x := 100, y := 20 } := by
    decide!
  have e2 : connectionTarget twoNeurons 300 200 apicalConnection
      = some { x := 100, y := 20 } := by decide!
  have hpt : pt = { x := 100, y := 20 } := Option.some.inj (ht.symm.trans e1)
  have hqt : qt = { x := 100, y := 20 } := Option.some.inj (ht2.symm.trans e2)
  rw [hpt] at hr
  rw [hqt] at hr2
  exact ⟨hc, hr, e1, hr2, e2⟩

end NeuroUI
